import Mathlib

/-!
Verification development for the layout/buffer synchronization engine of the
vscode-neovim extension (the BufferManager class, src/unnamed/part_000).

The TypeScript source is shallowly embedded: JS Map objects become association
lists with insertion-order-preserving update, the neovim RPC client becomes an
explicit backend state with a fresh-id counter and a failure oracle, and each
method of the class becomes a pure Lean function threading the manager state.
JS number quirks that the code relies on (undefined/0 falsiness, NaN from
parseInt) are modelled explicitly.
-/

set_option maxHeartbeats 1000000

namespace VNSync

/-! ## Association lists (model of JS Map, insertion ordered) -/

/-- Association list, the model of a JS Map. The key order is insertion order. -/
abbrev AList (α β : Type) : Type := List (α × β)

namespace AList

variable {α β : Type} [DecidableEq α]

/-- Map.get: value of the first entry with the given key. -/
def lookupA : AList α β → α → Option β
  | [], _ => none
  | p :: r, k => if p.1 = k then some p.2 else lookupA r k

/-- Map.set: replace the value in place if the key is present, else append. -/
def insertA : AList α β → α → β → AList α β
  | [], k, v => [(k, v)]
  | p :: r, k, v => if p.1 = k then (k, v) :: r else p :: insertA r k v

/-- Map.delete: remove the entries with the given key. -/
def eraseA : AList α β → α → AList α β
  | [], _ => []
  | p :: r, k => if p.1 = k then eraseA r k else p :: eraseA r k

/-- Map.has. -/
def hasA (m : AList α β) (k : α) : Bool := (lookupA m k).isSome

/-- All keys are distinct (true of every JS Map by construction). -/
def NodupKeys (m : AList α β) : Prop := List.Pairwise (fun p q => p.1 ≠ q.1) m

instance (m : AList α β) : Decidable (NodupKeys m) := by
  unfold NodupKeys; infer_instance

@[simp] theorem lookupA_nil (k : α) : lookupA ([] : AList α β) k = none := rfl

theorem lookupA_cons (p : α × β) (r : AList α β) (k : α) :
    lookupA (p :: r) k = if p.1 = k then some p.2 else lookupA r k := rfl

@[simp] theorem lookupA_insertA_self (m : AList α β) (k : α) (v : β) :
    lookupA (insertA m k v) k = some v := by
  induction m with
  | nil => simp [insertA, lookupA]
  | cons p r ih =>
    by_cases h : p.1 = k
    · simp [insertA, h, lookupA]
    · simp [insertA, h, lookupA, ih]

theorem lookupA_insertA_ne (m : AList α β) (k k' : α) (v : β) (h : k ≠ k') :
    lookupA (insertA m k v) k' = lookupA m k' := by
  induction m with
  | nil => simp [insertA, lookupA, h]
  | cons p r ih =>
    by_cases hp : p.1 = k
    · simp [insertA, hp, lookupA, h, Ne.symm h]
    · by_cases hp' : p.1 = k'
      · simp [insertA, hp, lookupA, hp', Ne.symm h]
      · simp [insertA, hp, lookupA, hp', ih]

@[simp] theorem lookupA_eraseA_self (m : AList α β) (k : α) :
    lookupA (eraseA m k) k = none := by
  induction m with
  | nil => simp [eraseA]
  | cons p r ih =>
    by_cases h : p.1 = k
    · simp [eraseA, h, ih]
    · simp [eraseA, h, lookupA, ih]

theorem lookupA_eraseA_ne (m : AList α β) (k k' : α) (h : k ≠ k') :
    lookupA (eraseA m k) k' = lookupA m k' := by
  induction m with
  | nil => simp [eraseA]
  | cons p r ih =>
    by_cases hp : p.1 = k
    · simp [eraseA, hp, lookupA, h, ih]
    · by_cases hp' : p.1 = k'
      · simp [eraseA, hp, lookupA, hp', Ne.symm h]
      · simp [eraseA, hp, lookupA, hp', ih]

theorem mem_insertA (m : AList α β) (k : α) (v : β) (p : α × β)
    (h : p ∈ insertA m k v) : p = (k, v) ∨ p ∈ m := by
  induction m with
  | nil =>
    simp only [insertA, List.mem_singleton] at h
    exact Or.inl h
  | cons q r ih =>
    by_cases hq : q.1 = k
    · simp only [insertA, if_pos hq] at h
      rcases List.mem_cons.mp h with h1 | h2
      · exact Or.inl h1
      · exact Or.inr (List.mem_cons_of_mem _ h2)
    · simp only [insertA, if_neg hq] at h
      rcases List.mem_cons.mp h with h1 | h2
      · exact Or.inr (by rw [h1]; exact List.mem_cons_self _ _)
      · rcases ih h2 with h3 | h4
        · exact Or.inl h3
        · exact Or.inr (List.mem_cons_of_mem _ h4)

theorem mem_eraseA (m : AList α β) (k : α) (p : α × β)
    (h : p ∈ eraseA m k) : p ∈ m ∧ p.1 ≠ k := by
  induction m with
  | nil => exact absurd h (List.not_mem_nil p)
  | cons q r ih =>
    by_cases hq : q.1 = k
    · simp only [eraseA, if_pos hq] at h
      obtain ⟨h1, h2⟩ := ih h
      exact ⟨List.mem_cons_of_mem _ h1, h2⟩
    · simp only [eraseA, if_neg hq] at h
      rcases List.mem_cons.mp h with h1 | h2
      · exact ⟨by rw [h1]; exact List.mem_cons_self _ _, by rw [h1]; exact hq⟩
      · obtain ⟨h1, h2⟩ := ih h2
        exact ⟨List.mem_cons_of_mem _ h1, h2⟩

theorem nodupKeys_insertA (m : AList α β) (k : α) (v : β) (h : NodupKeys m) :
    NodupKeys (insertA m k v) := by
  induction m with
  | nil => simp [insertA, NodupKeys]
  | cons q r ih =>
    rcases List.pairwise_cons.mp h with ⟨hq, hr⟩
    by_cases hqk : q.1 = k
    · simp only [insertA, if_pos hqk]
      exact List.pairwise_cons.mpr ⟨fun p hp => by
        have := hq p hp; simpa [hqk] using this, hr⟩
    · simp only [insertA, if_neg hqk]
      refine List.pairwise_cons.mpr ⟨fun p hp => ?_, ih hr⟩
      rcases mem_insertA r k v p hp with h1 | h2
      · rw [h1]; exact hqk
      · exact hq p h2

theorem nodupKeys_eraseA (m : AList α β) (k : α) (h : NodupKeys m) :
    NodupKeys (eraseA m k) := by
  induction m with
  | nil => simp [eraseA, NodupKeys]
  | cons q r ih =>
    rcases List.pairwise_cons.mp h with ⟨hq, hr⟩
    by_cases hqk : q.1 = k
    · simp only [eraseA, if_pos hqk]; exact ih hr
    · simp only [eraseA, if_neg hqk]
      refine List.pairwise_cons.mpr ⟨fun p hp => hq p (mem_eraseA r k p hp).1, ih hr⟩

theorem lookupA_mem (m : AList α β) (k : α) (v : β) (h : lookupA m k = some v) :
    (k, v) ∈ m := by
  induction m with
  | nil => simp [lookupA] at h
  | cons p r ih =>
    rw [lookupA_cons] at h
    by_cases hp : p.1 = k
    · rw [if_pos hp] at h
      have hv : p.2 = v := Option.some.inj h
      have hpkv : p = (k, v) := by
        cases p with
        | mk a b =>
          simp only [Prod.mk.injEq]
          exact ⟨hp, hv⟩
      rw [← hpkv]
      exact List.mem_cons_self _ _
    · rw [if_neg hp] at h
      exact List.mem_cons_of_mem _ (ih h)

theorem lookupA_append_right (m m' : AList α β) (k : α) (h : lookupA m k = none) :
    lookupA (m ++ m') k = lookupA m' k := by
  induction m with
  | nil => simp
  | cons p r ih =>
    by_cases hp : p.1 = k
    · simp [lookupA, hp] at h
    · simp [lookupA, hp] at h ⊢
      exact ih h

end AList

open AList

/-! ## Data model

Host-editor handles are reference stable (source comment line 9), so identity
equality of documents and editors is modelled by structural equality over
handle records that carry a numeric identity. -/

/-- A JS number that may be NaN: none encodes NaN, some n an integer value.
Needed because parseInt can yield NaN, which the source stores in a Map. -/
abbrev JSNum := Option Int

/-- vscode TextDocument: reference-stable handle with the fields the manager reads. -/
structure TextDocument where
  docId : Nat
  uriStr : String
  eolCrlf : Bool
  text : String
deriving DecidableEq

/-- Per-editor formatting options (editor.options). -/
structure EditorOptions where
  insertSpaces : Bool
  tabSize : Nat
deriving DecidableEq

/-- vscode TextEditor: reference-stable handle; viewColumn is none for system
editors such as peek views (source comment line 307). -/
structure TextEditor where
  editorId : Nat
  document : TextDocument
  viewColumn : Option Int
  options : EditorOptions
  cursorLine : Nat
  cursorCol : Nat
deriving DecidableEq

/-- JS truthiness of a possibly-undefined number (undefined and 0 are falsy). -/
def vcTruthy : Option Int → Bool
  | none => false
  | some n => decide (n ≠ 0)

/-- Value of a view column known to be truthy. -/
def vcVal (v : Option Int) : Int := v.getD 0

/-! ## Strings: substring test and parseInt, as used by the source -/

/-- Whether sub is a prefix of l (character lists). -/
def isPrefL : List Char → List Char → Bool
  | _, [] => true
  | [], _ :: _ => false
  | c :: r, d :: s => c = d && isPrefL r s

/-- Whether sub occurs inside l. -/
def hasInfixL (sub : List Char) : List Char → Bool
  | [] => sub.isEmpty
  | c :: r => isPrefL (c :: r) sub || hasInfixL sub r

/-- Model of the regex test for URI-shaped names: the name contains the three
characters colon slash slash. -/
def containsSubstr (s sub : String) : Bool := hasInfixL sub.toList s.toList

/-- Whitespace skipped by JS parseInt and trimmed by JS trim. -/
def isWS (c : Char) : Bool := c = ' ' || c = '\t' || c = '\n' || c = '\r'

/-- Model of the JS string trim: drop whitespace from both ends. -/
def trimStr (s : String) : String :=
  String.mk (((s.toList.dropWhile isWS).reverse.dropWhile isWS).reverse)

/-- Fueled splitter core: cut the list at each occurrence of sep. The fuel is
the length of the scanned list, consumed one character per step. -/
def splitLGo (sep : List Char) : Nat → List Char → List Char → List (List Char)
  | _, [], acc => [acc.reverse]
  | 0, l, acc => [acc.reverse ++ l]
  | fuel + 1, c :: r, acc =>
    if isPrefL (c :: r) sep then
      acc.reverse :: splitLGo sep fuel (List.drop (sep.length - 1) r) []
    else splitLGo sep fuel r (c :: acc)

/-- Model of the JS string split on a separator (the source splits the document
text on its end-of-line string, which is never empty). -/
def splitOnL (s sep : String) : List String :=
  if sep = "" then [s]
  else (splitLGo sep.toList s.toList.length s.toList []).map String.mk

/-- Numeric value of the maximal leading digit run. -/
def digitsToNat (l : List Char) : Nat := l.foldl (fun a c => a * 10 + (c.toNat - 48)) 0

/-- Model of the JS parseInt(s, 10): skip whitespace, optional sign, maximal
digit prefix; NaN (encoded none) when no digit follows. -/
def parseInt10 (s : String) : JSNum :=
  match s.toList.dropWhile isWS with
  | '-' :: r =>
    let d := r.takeWhile Char.isDigit
    if d = [] then none else some (-(Int.ofNat (digitsToNat d)))
  | '+' :: r =>
    let d := r.takeWhile Char.isDigit
    if d = [] then none else some (Int.ofNat (digitsToNat d))
  | r =>
    let d := r.takeWhile Char.isDigit
    if d = [] then none else some (Int.ofNat (digitsToNat d))

/-! ## Backend RPC operations -/

/-- Option value in an nvim_buf_set_option request. -/
inductive OptVal where
  | ob (b : Bool)
  | on (n : Nat)
  | os (s : String)
deriving DecidableEq

/-- A single queued backend request, one constructor per RPC method the
BufferManager uses. The buffer argument of winSetBuf is a JSNum because the
source takes it from the document-to-buffer Map, whose values can be NaN. -/
inductive NvimRequest where
  | winSetBuf (win : Int) (buf : JSNum)
  | winSetCursor (win : Int) (pos : Int × Int)
  | winClose (win : Int) (force : Bool)
  | winSetVar (win : Int) (key : String) (val : Bool)
  | bufSetOption (buf : Int) (key : String) (val : OptVal)
  | bufSetLines (buf : Int) (start fin : Int) (strict : Bool) (lines : List String)
  | bufSetVar (buf : Int) (key : String) (val : Bool)
  | bufSetName (buf : Int) (nm : String)
  | callFunction (fn : String) (args : List Int)
deriving DecidableEq

/-- Modelled from the spec: the cursor-translation helper
getNeovimCursorPosFromEditor lives in utils.ts, which is not part of the given
sources. The spec only requires the editor's translated cursor position, so it
is modelled as the backend's one-based line and zero-based column. -/
def getNeovimCursorPosFromEditor (e : TextEditor) : Int × Int :=
  (Int.ofNat e.cursorLine + 1, Int.ofNat e.cursorCol)

/-- Modelled from the spec: the RPC client (external collaborator, spec section
6) allocates fresh integer ids for created buffers and windows and may fail any
creation call with a numeric error code. The failAt oracle lists the indices of
the creation calls that fail; nextId is the fresh-id counter. -/
structure Backend where
  nextId : Int
  callIdx : Nat
  failAt : List Nat
deriving DecidableEq

/-- Modelled from the spec: client.createBuffer returns either a numeric error
code or a fresh buffer handle. -/
def clientCreateBuffer (b : Backend) : Except Int Int × Backend :=
  if b.failAt.contains b.callIdx then
    (Except.error 0, { b with callIdx := b.callIdx + 1 })
  else
    (Except.ok b.nextId, { b with nextId := b.nextId + 1, callIdx := b.callIdx + 1 })

/-- Modelled from the spec: client.openWindow returns either a numeric error
code or a fresh window handle. -/
def clientOpenWindow (b : Backend) : Except Int Int × Backend :=
  if b.failAt.contains b.callIdx then
    (Except.error 0, { b with callIdx := b.callIdx + 1 })
  else
    (Except.ok b.nextId, { b with nextId := b.nextId + 1, callIdx := b.callIdx + 1 })

/-! ## Buffer Initializer (source lines 442-493) -/

/-- The single atomic batch issued by initBufferForDocument (source lines
455-471). When no editor is supplied the source defaults insertSpaces to true
and tabSize to 4 (line 451). -/
def initBufferRequests (document : TextDocument) (bufId : Int)
    (editor : Option TextEditor) : List NvimRequest :=
  let insertSpaces := match editor with
    | some e => e.options.insertSpaces
    | none => true
  let tabSize := match editor with
    | some e => e.options.tabSize
    | none => 4
  let eol := if document.eolCrlf then "\r\n" else "\n"
  let lines := splitOnL document.text eol
  [ NvimRequest.bufSetOption bufId "expandtab" (OptVal.ob insertSpaces),
    NvimRequest.bufSetOption bufId "tabstop" (OptVal.on (if insertSpaces then tabSize else 1)),
    NvimRequest.bufSetOption bufId "shiftwidth" (OptVal.on (if insertSpaces then tabSize else 1)),
    NvimRequest.bufSetLines bufId 0 1 false lines,
    NvimRequest.bufSetVar bufId "vscode_controlled" true,
    NvimRequest.bufSetName bufId document.uriStr,
    NvimRequest.callFunction "VSCodeClearUndo" [bufId],
    NvimRequest.bufSetOption bufId "buflisted" (OptVal.ob true) ]

/-- The atomic batch issued by resyncBufferTabOptions (source lines 480-493). -/
def resyncRequests (editor : TextEditor) (bufId : Int) : List NvimRequest :=
  let insertSpaces := editor.options.insertSpaces
  let tabSize := editor.options.tabSize
  [ NvimRequest.bufSetOption bufId "expandtab" (OptVal.ob insertSpaces),
    NvimRequest.bufSetOption bufId "tabstop" (OptVal.on (if insertSpaces then tabSize else 1)),
    NvimRequest.bufSetOption bufId "shiftwidth" (OptVal.on (if insertSpaces then tabSize else 1)) ]

/-- createNeovimWindow (source lines 500-525): create a scratch buffer, open an
external window on it, then issue one atomic batch marking the window and the
scratch buffer. Raises (error) when either creation call fails. On success
returns the window id and the issued batch. -/
def createNeovimWindow (b : Backend) : Except Unit (Int × List NvimRequest) × Backend :=
  match clientCreateBuffer b with
  | (Except.error _, b1) => (Except.error (), b1)
  | (Except.ok bufId, b1) =>
    match clientOpenWindow b1 with
    | (Except.error _, b2) => (Except.error (), b2)
    | (Except.ok winId, b2) =>
      (Except.ok (winId,
        [ NvimRequest.winSetVar winId "vscode_clearjumps" true,
          NvimRequest.bufSetOption bufId "vscode_temp" (OptVal.ob true),
          NvimRequest.bufSetOption bufId "hidden" (OptVal.ob false),
          NvimRequest.bufSetOption bufId "bufhidden" (OptVal.os "wipe") ]), b2)

/-! ## BufferManager state and the Layout Reconciler (syncLayout) -/

/-- The mutable maps of the BufferManager (source lines 26-48). -/
structure BufferManagerState where
  openedEditors : List TextEditor
  textDocumentToBufferId : AList TextDocument JSNum
  editorColumnsToWinId : AList Int Int
  noColumnEditorsToWinId : AList TextEditor Int
  grids : AList Int Int
deriving DecidableEq

/-- Accumulator threaded through one syncLayout pass: the three identity maps,
the backend, the queued final batch (nvimRequests), the kept view columns, the
side batches issued during the pass (buffer init and window creation), and the
ids created. -/
structure PassAcc where
  docMap : AList TextDocument JSNum
  colMap : AList Int Int
  noColMap : AList TextEditor Int
  backend : Backend
  requests : List NvimRequest
  keep : List Int
  sideBatches : List (List NvimRequest)
  createdBuffers : List Int
  createdWindows : List Int
deriving DecidableEq

/-- Source lines 284-297: if the document is unknown, create a backend buffer;
a numeric result is an error and the editor is skipped for this pass (error
value); otherwise run the Buffer Initializer and record the mapping. -/
def ensureBuffer (a : PassAcc) (e : TextEditor) : Except PassAcc PassAcc :=
  if hasA a.docMap e.document then Except.ok a
  else
    match clientCreateBuffer a.backend with
    | (Except.error _, b1) => Except.error { a with backend := b1 }
    | (Except.ok bufId, b1) =>
      Except.ok { a with
        backend := b1,
        sideBatches := a.sideBatches ++ [initBufferRequests e.document bufId (some e)],
        docMap := insertA a.docMap e.document (some bufId),
        createdBuffers := a.createdBuffers ++ [bufId] }

/-- Source lines 322-337: after a window id is resolved, a falsy id raises
(caught at line 338, skipping the editor); otherwise the column is recorded as
kept and the win-set-buf and win-set-cursor operations are queued. -/
def finishAssign (a : PassAcc) (e : TextEditor) (winId : Option Int) (bufId : JSNum) : PassAcc :=
  match winId with
  | none => a
  | some w =>
    if w = 0 then a
    else
      let a1 := if vcTruthy e.viewColumn then { a with keep := a.keep ++ [vcVal e.viewColumn] } else a
      { a1 with requests := a1.requests ++
          [ NvimRequest.winSetBuf w bufId,
            NvimRequest.winSetCursor w (getNeovimCursorPosFromEditor e) ] }

/-- Source lines 304-341: resolve or create the editor's window. A new window
is created when the editor has no view column or its column is unmapped; a
creation failure is caught and the editor is skipped. -/
def assignWindow (a : PassAcc) (e : TextEditor) (bufId : JSNum) : PassAcc :=
  if ¬ vcTruthy e.viewColumn ∨ hasA a.colMap (vcVal e.viewColumn) = false then
    match createNeovimWindow a.backend with
    | (Except.error _, b2) => { a with backend := b2 }
    | (Except.ok (winId, batch), b2) =>
      if vcTruthy e.viewColumn then
        finishAssign { a with backend := b2,
                              sideBatches := a.sideBatches ++ [batch],
                              createdWindows := a.createdWindows ++ [winId],
                              colMap := insertA a.colMap (vcVal e.viewColumn) winId }
          e (some winId) bufId
      else
        finishAssign { a with backend := b2,
                              sideBatches := a.sideBatches ++ [batch],
                              createdWindows := a.createdWindows ++ [winId],
                              noColMap := insertA a.noColMap e winId }
          e (some winId) bufId
  else
    finishAssign a e (lookupA a.colMap (vcVal e.viewColumn)) bufId

/-- One iteration of the first loop of syncLayout (source lines 275-342):
ensure a buffer for the document, skip the editor when it was already visible
(line 299), otherwise assign a window. -/
def processVisibleEditor (prev : List TextEditor) (a : PassAcc) (e : TextEditor) : PassAcc :=
  match ensureBuffer a e with
  | Except.error a1 => a1
  | Except.ok a1 =>
    if prev.contains e then a1
    else assignWindow a1 e (lookupA a1.docMap e.document |>.getD none)

/-- Source lines 354-362: when the document of a gone editor is shown by no
current editor, drop its Document to Buffer mapping. -/
def ppeDocStep (current : List TextEditor) (a : PassAcc) (pe : TextEditor) : PassAcc :=
  if current.any (fun e => e.document = pe.document) then a
  else { a with docMap := eraseA a.docMap pe.document }

/-- Source lines 363-381: when the gone editor's column (or column-less
identity) was not kept, look up its window id; a falsy id skips the editor
(line 368), otherwise the mapping is removed and a window-close operation is
queued. -/
def ppeWinStep (a : PassAcc) (pe : TextEditor) : PassAcc :=
  if ¬ vcTruthy pe.viewColumn = true ∨ a.keep.contains (vcVal pe.viewColumn) = false then
    match (if vcTruthy pe.viewColumn then lookupA a.colMap (vcVal pe.viewColumn)
      else lookupA a.noColMap pe) with
    | none => a
    | some w =>
      if w = 0 then a
      else if vcTruthy pe.viewColumn then
        { a with colMap := eraseA a.colMap (vcVal pe.viewColumn),
                 requests := a.requests ++ [NvimRequest.winClose w true] }
      else
        { a with noColMap := eraseA a.noColMap pe,
                 requests := a.requests ++ [NvimRequest.winClose w true] }
  else a

/-- One iteration of the second loop of syncLayout (source lines 346-382):
for a previously visible editor no longer visible, drop the document mapping
when its document is not shown anymore, and close its window when its column
(or column-less identity) was not kept. -/
def processPrevEditor (current : List TextEditor) (a : PassAcc) (pe : TextEditor) : PassAcc :=
  if current.contains pe then a
  else ppeWinStep (ppeDocStep current a pe) pe

/-- Initial pass accumulator built from the manager state. -/
def initAcc (st : BufferManagerState) (b : Backend) : PassAcc :=
  { docMap := st.textDocumentToBufferId,
    colMap := st.editorColumnsToWinId,
    noColMap := st.noColumnEditorsToWinId,
    backend := b, requests := [], keep := [], sideBatches := [],
    createdBuffers := [], createdWindows := [] }

/-- First loop of syncLayout over the current visible editors. -/
def phase1 (prev : List TextEditor) (a : PassAcc) (current : List TextEditor) : PassAcc :=
  current.foldl (processVisibleEditor prev) a

/-- Second loop of syncLayout over the previously visible editors. -/
def phase2 (current : List TextEditor) (a : PassAcc) (prev : List TextEditor) : PassAcc :=
  prev.foldl (processPrevEditor current) a

/-- Result of one full syncLayout pass: the new manager state, the advanced
backend, the final atomic batch (issued at source line 383), the side batches
issued during the pass, and the created ids. -/
structure SyncLayoutResult where
  st : BufferManagerState
  backend : Backend
  finalBatch : List NvimRequest
  sideBatches : List (List NvimRequest)
  createdBuffers : List Int
  createdWindows : List Int
deriving DecidableEq

/-- One debounced syncLayout pass (source lines 259-394): run both loops, issue
the queued operations as one atomic batch, and replace the stored snapshot of
visible editors with the current one (line 386). -/
def syncLayoutPass (st : BufferManagerState) (b : Backend)
    (current : List TextEditor) : SyncLayoutResult :=
  let prev := st.openedEditors
  let a1 := phase1 prev (initAcc st b) current
  let a2 := phase2 current a1 prev
  { st := { openedEditors := current,
            textDocumentToBufferId := a2.docMap,
            editorColumnsToWinId := a2.colMap,
            noColumnEditorsToWinId := a2.noColMap,
            grids := st.grids },
    backend := a2.backend,
    finalBatch := a2.requests,
    sideBatches := a2.sideBatches,
    createdBuffers := a2.createdBuffers,
    createdWindows := a2.createdWindows }

/-- onDidCloseTextDocument (source lines 236-238). -/
def onDidCloseTextDocument (st : BufferManagerState) (d : TextDocument) : BufferManagerState :=
  { st with textDocumentToBufferId := eraseA st.textDocumentToBufferId d }

/-! ## Redraw handler (source lines 139-158) -/

/-- One redraw event: the event name and its argument tuples, of which the
source reads the first component (grid) and, for position events, the second
(window id). -/
abbrev RedrawEvent := String × List (Int × Int)

/-- Processing of a single redraw event (the switch at source lines 142-156). -/
def handleRedrawEvent (st : BufferManagerState) (ev : RedrawEvent) : BufferManagerState :=
  if ev.1 = "win_external_pos" ∨ ev.1 = "win_pos" then
    { st with grids := ev.2.foldl (fun g p => insertA g p.1 p.2) st.grids }
  else if ev.1 = "win_close" then
    { st with grids := ev.2.foldl (fun g p => eraseA g p.1) st.grids }
  else st

/-- handleRedrawBatch (source lines 139-158). -/
def handleRedrawBatch (st : BufferManagerState) (batch : List RedrawEvent) : BufferManagerState :=
  batch.foldl handleRedrawEvent st

/-! ## Host-editor actions issued by the Backend-Originated Request Handler -/

/-- A call into the host editor API, in issue order. -/
inductive HostAction where
  | openUntitled
  | openPath (nm : String)
  | openUri (uri : String)
  | revertAndCloseActiveEditor
  | showDoc (d : TextDocument) (col : Option Int)
  | showDocJump (d : TextDocument) (col : Option Int)
  | closeOtherEditors
deriving DecidableEq

/-- The close argument of an open-file request: a number or the string all.
A JS undefined argument behaves exactly like the number 0 (both falsy and both
different from the string all), so it needs no separate constructor. -/
inductive CloseArg where
  | num (n : Int)
  | all
deriving DecidableEq

/-- Environment of one open-file request: the active editor and the documents
the host returns from openTextDocument (none models a failed open, after which
the handler returns, source line 171). -/
structure OpenFileEnv where
  activeEditor : Option TextEditor
  untitledDoc : Option TextDocument
  docForPath : String → Option TextDocument

/-- The open-file branch of handleExtensionRequest (source lines 162-184),
as the ordered list of host-editor calls it performs. -/
def openFileRequest (env : OpenFileEnv) (fileName : String) (close : CloseArg) : List HostAction :=
  let openAct := if fileName = "__vscode_new__" then HostAction.openUntitled
    else HostAction.openPath (trimStr fileName)
  let doc := if fileName = "__vscode_new__" then env.untitledDoc
    else env.docForPath (trimStr fileName)
  match doc with
  | none => [openAct]
  | some d =>
    let closeFirst := (match close with
      | CloseArg.num n => decide (n ≠ 0)
      | CloseArg.all => false) && env.activeEditor.isSome
    let viewColumn := if closeFirst then (env.activeEditor.bind fun e => e.viewColumn) else none
    [openAct]
      ++ (if closeFirst then [HostAction.revertAndCloseActiveEditor] else [])
      ++ [HostAction.showDoc d viewColumn]
      ++ (if close = CloseArg.all then [HostAction.closeOtherEditors] else [])

/-! ## A host-editor layout model

Modelled from the spec: the host editor itself is an external collaborator
(spec section 6); its visible panes react to show and close commands. This
minimal model is used only to state what the claimed sequencing guarantees
about visible-editor counts. -/

/-- A visible host pane. -/
structure HostPane where
  doc : TextDocument
  column : Option Int
deriving DecidableEq

/-- Visible panes and the active pane of the host editor. -/
structure HostState where
  visible : List HostPane
  active : Option HostPane
deriving DecidableEq

/-- Modelled from the spec: showing a document in a column replaces the pane of
that column if one exists, else opens a new pane. -/
def showPane (v : List HostPane) (p : HostPane) : List HostPane :=
  match p.column with
  | none => v ++ [p]
  | some c =>
    if v.any (fun q => q.column = some c) then
      v.map (fun q => if q.column = some c then p else q)
    else v ++ [p]

/-- Modelled from the spec: effect of each host-editor call on the visible
panes (spec section 6 interface contract). -/
def applyHostAction (h : HostState) (act : HostAction) : HostState :=
  match act with
  | HostAction.openUntitled => h
  | HostAction.openPath _ => h
  | HostAction.openUri _ => h
  | HostAction.revertAndCloseActiveEditor =>
    match h.active with
    | none => h
    | some p => { visible := h.visible.erase p, active := none }
  | HostAction.showDoc d col =>
    let p : HostPane := { doc := d, column := col }
    { visible := showPane h.visible p, active := some p }
  | HostAction.showDocJump d col =>
    let p : HostPane := { doc := d, column := col }
    { visible := showPane h.visible p, active := some p }
  | HostAction.closeOtherEditors =>
    match h.active with
    | none => h
    | some p => { visible := [p], active := some p }

/-- Fold of host actions over a host state. -/
def applyHostActions (h : HostState) (acts : List HostAction) : HostState :=
  acts.foldl applyHostAction h

/-! ## external-buffer branch of handleExtensionRequest (source lines 185-232) -/

/-- Environment of one external-buffer request: the open host documents, the
document the host returns for a parsed URI (none models a throw, swallowed by
the catch at line 227), the active editor, the backend buffer list, and the
editor returned by showTextDocument (none models a throw). -/
structure ExtBufEnv where
  workspaceDocs : List TextDocument
  openUriDoc : String → Option TextDocument
  activeEditor : Option TextEditor
  backendBuffers : List Int
  shownEditor : Option TextEditor

/-- Result of an external-buffer request: new manager state, host calls, and
the atomic batches issued. -/
structure ExtBufResult where
  st : BufferManagerState
  hostActions : List HostAction
  batches : List (List NvimRequest)
deriving DecidableEq

/-- The jump path (source lines 195-229), entered with the resolved document:
on a first-time mapping, look for the backend buffer with the parsed id,
initialize it when found (setting forceTabOptions), and record the mapping
regardless; then show the document in the active column and resync its tab
options only when forceTabOptions was set. -/
def externalBufferJump (st : BufferManagerState) (env : ExtBufEnv)
    (idStr : String) (doc : TextDocument) (acts0 : List HostAction) : ExtBufResult :=
  let id := parseInt10 idStr
  let showCol : Option Int := match env.activeEditor with
    | some e => e.viewColumn
    | none => some (-1)
  if hasA st.textDocumentToBufferId doc then
    { st := st, hostActions := acts0 ++ [HostAction.showDocJump doc showCol], batches := [] }
  else
    let buf := env.backendBuffers.find? (fun b => decide (some b = id))
    let initB : List (List NvimRequest) := match buf with
      | some b => [initBufferRequests doc b none]
      | none => []
    let resyncB : List (List NvimRequest) := match env.shownEditor, buf with
      | some ed, some b => [resyncRequests ed b]
      | _, _ => []
    { st := { st with textDocumentToBufferId := insertA st.textDocumentToBufferId doc id },
      hostActions := acts0 ++ [HostAction.showDocJump doc showCol],
      batches := initB ++ resyncB }

/-- The external-buffer branch of handleExtensionRequest (source lines
185-232). A non-URI-shaped or empty name goes to attachNeovimExternalBuffer,
whose body is entirely commented out in the source, hence a no-op; a URI-shaped
name is acted on only when the jump flag is truthy. -/
def externalBufferRequest (st : BufferManagerState) (env : ExtBufEnv)
    (nm idStr : String) (isJumping : Int) : ExtBufResult :=
  if nm ≠ "" ∧ containsSubstr nm "://" = true then
    if isJumping ≠ 0 ∧ nm ≠ "" then
      match env.workspaceDocs.find? (fun d => decide (d.uriStr = nm)) with
      | some doc => externalBufferJump st env idStr doc []
      | none =>
        match env.openUriDoc nm with
        | none => { st := st, hostActions := [HostAction.openUri nm], batches := [] }
        | some doc => externalBufferJump st env idStr doc [HostAction.openUri nm]
    else { st := st, hostActions := [], batches := [] }
  else { st := st, hostActions := [], batches := [] }

/-! ## Scheduling model of the two debounced synchronizers

The promise discipline of the source: onDidChangeVisibleTextEditors (lines
240-250) synchronously creates changeLayoutPromise when absent and schedules
the debounced syncLayout body; that body (lines 259-394) issues its atomic
batch and then resolves and clears the promise (lines 383-390). The debounced
syncActiveEditor body (lines 396-425) first awaits changeLayoutPromise when one
exists and only then issues nvim_set_current_win (line 421).

Promises are modelled by generation numbers; a generation is resolved once it
is no longer the pending one. Each active-editor notification is modelled as
its own task (debounce coalescing only removes runs, which weakens nothing the
claim needs). Emissions are logged in issue order; each layout body run is
numbered so a batch can be dated against a notification. Early-return paths of
the active body (no active editor or no window id, lines 403-416) emit nothing
and are omitted. -/

/-- An RPC emission of the scheduling model. -/
inductive SchedEv where
  | batchIssued (pass : Nat)
  | setCurrentWin (tid : Nat)
deriving DecidableEq

/-- A scheduler step: a notification arriving, a debounced body starting, or an
awaiting body resuming after its promise resolved. -/
inductive SchedAction where
  | notifyLayout
  | notifyActive
  | runLayout
  | startActive (tid : Nat)
  | resumeActive (tid : Nat)
deriving DecidableEq

/-- Scheduler state: the pending promise generation (none when the promise slot
is clear), the next fresh generation, whether a layout body is scheduled, the
active-body tasks (queued, or awaiting a generation), the task and pass
counters, and the emission log. -/
structure Sched where
  pending : Option Nat
  promiseGen : Nat
  layoutQueued : Bool
  tasks : AList Nat (Option Nat)
  nextTid : Nat
  passCount : Nat
  log : List SchedEv
deriving DecidableEq

/-- A promise generation is resolved when it was created and is no longer the
pending one. -/
def genResolved (s : Sched) (g : Nat) : Prop := g < s.promiseGen ∧ s.pending ≠ some g

instance (s : Sched) (g : Nat) : Decidable (genResolved s g) := by
  unfold genResolved; infer_instance

/-- One scheduler step; none when the action is not enabled. -/
def schedStep (s : Sched) : SchedAction → Option Sched
  | SchedAction.notifyLayout =>
    match s.pending with
    | some _ => some { s with layoutQueued := true }
    | none => some { s with pending := some s.promiseGen, promiseGen := s.promiseGen + 1,
                            layoutQueued := true }
  | SchedAction.notifyActive =>
    some { s with tasks := s.tasks ++ [(s.nextTid, none)], nextTid := s.nextTid + 1 }
  | SchedAction.runLayout =>
    if s.layoutQueued then
      some { s with layoutQueued := false, pending := none, passCount := s.passCount + 1,
                    log := s.log ++ [SchedEv.batchIssued s.passCount] }
    else none
  | SchedAction.startActive tid =>
    if lookupA s.tasks tid = some none then
      match s.pending with
      | some g => some { s with tasks := insertA s.tasks tid (some g) }
      | none => some { s with tasks := eraseA s.tasks tid,
                              log := s.log ++ [SchedEv.setCurrentWin tid] }
    else none
  | SchedAction.resumeActive tid =>
    match lookupA s.tasks tid with
    | some (some g) =>
      if genResolved s g then
        some { s with tasks := eraseA s.tasks tid,
                      log := s.log ++ [SchedEv.setCurrentWin tid] }
      else none
    | _ => none

/-- Run a list of scheduler actions; none when some action was not enabled. -/
def runTrace (s : Sched) : List SchedAction → Option Sched
  | [] => some s
  | act :: tr =>
    match schedStep s act with
    | none => none
    | some s1 => runTrace s1 tr

/-- Event a occurs strictly before event b somewhere in the log. -/
def Precedes (log : List SchedEv) (a b : SchedEv) : Prop :=
  ∃ l1 l2, log = l1 ++ l2 ∧ a ∈ l1 ∧ b ∈ l2

/-! ## Reachable manager states

One step per external stimulus the BufferManager reacts to: a debounced layout
pass over an arbitrary current visible-editor set, a document-close
notification, a redraw batch, and the two backend-originated requests. -/

/-- External stimulus applied to a manager state plus backend. -/
inductive ManagerOp where
  | sync (current : List TextEditor)
  | closeDoc (d : TextDocument)
  | redraw (batch : List RedrawEvent)
  | openFile (env : OpenFileEnv) (fileName : String) (close : CloseArg)
  | extBuf (env : ExtBufEnv) (nm idStr : String) (isJumping : Int)

/-- Effect of one stimulus on the manager state and backend. The open-file
handler issues only host-editor calls and never touches the identity maps. -/
def applyOp (g : BufferManagerState × Backend) (op : ManagerOp) :
    BufferManagerState × Backend :=
  match op with
  | ManagerOp.sync current =>
    let r := syncLayoutPass g.1 g.2 current
    (r.st, r.backend)
  | ManagerOp.closeDoc d => (onDidCloseTextDocument g.1 d, g.2)
  | ManagerOp.redraw batch => (handleRedrawBatch g.1 batch, g.2)
  | ManagerOp.openFile _ _ _ => g
  | ManagerOp.extBuf env nm idStr isJumping =>
    ((externalBufferRequest g.1 env nm idStr isJumping).st, g.2)

/-- The manager starts with empty maps; the backend starts with fresh id 1 and
an arbitrary failure oracle. -/
def initManager : BufferManagerState :=
  { openedEditors := [], textDocumentToBufferId := [], editorColumnsToWinId := [],
    noColumnEditorsToWinId := [], grids := [] }

/-- States reachable by any sequence of stimuli. -/
inductive Reachable : BufferManagerState × Backend → Prop where
  | base (failAt : List Nat) :
      Reachable (initManager, { nextId := 1, callIdx := 0, failAt := failAt })
  | step (g : BufferManagerState × Backend) (op : ManagerOp)
      (h : Reachable g) : Reachable (applyOp g op)

/-! ## Concrete fixtures used by witness theorems -/

/-- A sample document. -/
def exDoc : TextDocument :=
  { docId := 1, uriStr := "file:///a.txt", eolCrlf := false, text := "ab" }

/-- A second sample document. -/
def exDoc2 : TextDocument :=
  { docId := 2, uriStr := "file:///b.txt", eolCrlf := false, text := "cd" }

/-- Sample editor options. -/
def exOpts : EditorOptions := { insertSpaces := true, tabSize := 2 }

/-- A sample editor in column 1 showing exDoc. -/
def exEd : TextEditor :=
  { editorId := 1, document := exDoc, viewColumn := some 1, options := exOpts,
    cursorLine := 0, cursorCol := 0 }

/-- A sample column-less editor showing exDoc2. -/
def exEdNoCol : TextEditor :=
  { editorId := 2, document := exDoc2, viewColumn := none, options := exOpts,
    cursorLine := 0, cursorCol := 0 }

/-- A manager state where exEd is already synced: its document has buffer 1 and
its column has window 3. -/
def exSt : BufferManagerState :=
  { openedEditors := [exEd], textDocumentToBufferId := [(exDoc, some 1)],
    editorColumnsToWinId := [(1, 3)], noColumnEditorsToWinId := [], grids := [] }

/-- A backend whose next fresh id is 4, with no failing calls. -/
def exBackend : Backend := { nextId := 4, callIdx := 2, failAt := [] }

/-- An external-buffer environment with exDoc open, an empty backend buffer
list, and no active editor. -/
def exEnv : ExtBufEnv :=
  { workspaceDocs := [exDoc], openUriDoc := fun _ => none, activeEditor := none,
    backendBuffers := [], shownEditor := none }

/-! ## C8: Buffer Initializer batch -/

/-- C8: for every document/buffer pair, initBufferForDocument issues a single
atomic batch that sets expandtab from the editor's insert-spaces option, sets
tabstop and shiftwidth to the editor's tab size when spaces are inserted and to
exactly 1 when tabs are not expanded, sets the buffer lines to the document
text split on the document's own end-of-line convention, sets the
host-controlled buffer variable, sets the buffer name to the document's URI
string, clears undo history after the lines are set (position 6, after the
lines at position 3), and marks the buffer listed as the last operation; when
no editor is supplied, insert-spaces defaults to true and tab size to 4. -/
theorem initBuffer_batch_contract (d : TextDocument) (bufId : Int) (ed : Option TextEditor) :
    let insertSpaces := match ed with
      | some e => e.options.insertSpaces
      | none => true
    let tabSize : Nat := match ed with
      | some e => e.options.tabSize
      | none => 4
    let reqs := initBufferRequests d bufId ed
    reqs.length = 8
    ∧ reqs.get? 0 = some (NvimRequest.bufSetOption bufId "expandtab" (OptVal.ob insertSpaces))
    ∧ reqs.get? 1 = some (NvimRequest.bufSetOption bufId "tabstop"
        (OptVal.on (if insertSpaces then tabSize else 1)))
    ∧ reqs.get? 2 = some (NvimRequest.bufSetOption bufId "shiftwidth"
        (OptVal.on (if insertSpaces then tabSize else 1)))
    ∧ reqs.get? 3 = some (NvimRequest.bufSetLines bufId 0 1 false
        (splitOnL d.text (if d.eolCrlf then "\r\n" else "\n")))
    ∧ reqs.get? 4 = some (NvimRequest.bufSetVar bufId "vscode_controlled" true)
    ∧ reqs.get? 5 = some (NvimRequest.bufSetName bufId d.uriStr)
    ∧ reqs.get? 6 = some (NvimRequest.callFunction "VSCodeClearUndo" [bufId])
    ∧ reqs.getLast? = some (NvimRequest.bufSetOption bufId "buflisted" (OptVal.ob true)) := by
  cases ed with
  | none => exact ⟨rfl, rfl, rfl, rfl, rfl, rfl, rfl, rfl, rfl⟩
  | some e => exact ⟨rfl, rfl, rfl, rfl, rfl, rfl, rfl, rfl, rfl⟩

/-! ## C10: frame property of the redraw handler -/

/-- The redraw handler never touches the identity maps or the snapshot. -/
theorem redrawEvent_frame (st : BufferManagerState) (ev : RedrawEvent) :
    (handleRedrawEvent st ev).textDocumentToBufferId = st.textDocumentToBufferId
    ∧ (handleRedrawEvent st ev).editorColumnsToWinId = st.editorColumnsToWinId
    ∧ (handleRedrawEvent st ev).noColumnEditorsToWinId = st.noColumnEditorsToWinId
    ∧ (handleRedrawEvent st ev).openedEditors = st.openedEditors := by
  unfold handleRedrawEvent
  split
  · exact ⟨rfl, rfl, rfl, rfl⟩
  · split
    · exact ⟨rfl, rfl, rfl, rfl⟩
    · exact ⟨rfl, rfl, rfl, rfl⟩

/-- Frame property of a whole redraw batch. -/
theorem redrawBatch_frame_aux (batch : List RedrawEvent) :
    ∀ st : BufferManagerState,
    (handleRedrawBatch st batch).textDocumentToBufferId = st.textDocumentToBufferId
    ∧ (handleRedrawBatch st batch).editorColumnsToWinId = st.editorColumnsToWinId
    ∧ (handleRedrawBatch st batch).noColumnEditorsToWinId = st.noColumnEditorsToWinId
    ∧ (handleRedrawBatch st batch).openedEditors = st.openedEditors := by
  induction batch with
  | nil => intro st; exact ⟨rfl, rfl, rfl, rfl⟩
  | cons ev tr ih =>
    intro st
    have hstep := redrawEvent_frame st ev
    have htr := ih (handleRedrawEvent st ev)
    refine ⟨?_, ?_, ?_, ?_⟩
    · rw [handleRedrawBatch, List.foldl_cons, ← handleRedrawBatch, htr.1, hstep.1]
    · rw [handleRedrawBatch, List.foldl_cons, ← handleRedrawBatch, htr.2.1, hstep.2.1]
    · rw [handleRedrawBatch, List.foldl_cons, ← handleRedrawBatch, htr.2.2.1, hstep.2.2.1]
    · rw [handleRedrawBatch, List.foldl_cons, ← handleRedrawBatch, htr.2.2.2, hstep.2.2.2]

/-- C10: for every redraw batch, handleRedrawBatch mutates only the grid map:
win_pos and win_external_pos insert or overwrite grid entries with the given
window id, win_close deletes only the named grid entry, events with other names
are ignored, and the Document to Buffer, Column to Window and Editor to Window
maps and the stored previous visible-editor snapshot are unchanged. -/
theorem redraw_batch_frame (st : BufferManagerState) (batch : List RedrawEvent) :
    ((handleRedrawBatch st batch).textDocumentToBufferId = st.textDocumentToBufferId
      ∧ (handleRedrawBatch st batch).editorColumnsToWinId = st.editorColumnsToWinId
      ∧ (handleRedrawBatch st batch).noColumnEditorsToWinId = st.noColumnEditorsToWinId
      ∧ (handleRedrawBatch st batch).openedEditors = st.openedEditors)
    ∧ (∀ g w, (handleRedrawBatch st [("win_pos", [(g, w)])]).grids = insertA st.grids g w)
    ∧ (∀ g w, (handleRedrawBatch st [("win_external_pos", [(g, w)])]).grids
        = insertA st.grids g w)
    ∧ (∀ g w, (handleRedrawBatch st [("win_close", [(g, w)])]).grids = eraseA st.grids g)
    ∧ (∀ nm entries, nm ≠ "win_pos" → nm ≠ "win_external_pos" → nm ≠ "win_close" →
        handleRedrawBatch st [(nm, entries)] = st) := by
  refine ⟨redrawBatch_frame_aux batch st, ?_, ?_, ?_, ?_⟩
  · intro g w
    simp [handleRedrawBatch, handleRedrawEvent]
  · intro g w
    simp [handleRedrawBatch, handleRedrawEvent]
  · intro g w
    simp [handleRedrawBatch, handleRedrawEvent]
  · intro nm entries h1 h2 h3
    simp [handleRedrawBatch, handleRedrawEvent, h1, h2, h3]

/-- Witness for C10: a redraw event with an unknown name leaves the state
untouched. -/
theorem redraw_batch_frame_witness :
    handleRedrawBatch exSt [("mode_change", [(1, 2)])] = exSt :=
  (redraw_batch_frame exSt []).2.2.2.2 "mode_change" [(1, 2)]
    (by decide) (by decide) (by decide)

/-! ## C4: no-jump external-buffer requests are host no-ops -/

/-- A name containing the URI separator is nonempty. -/
theorem containsSubstr_ne_empty (nm : String) (h : containsSubstr nm "://" = true) :
    nm ≠ "" := by
  intro he
  subst he
  exact absurd h (by decide)

/-- C4: for every external-buffer request whose name contains the URI separator
and whose jump flag is falsy, handleExtensionRequest performs no host-editor
action, issues no batch, and leaves the manager state (all identity maps)
unchanged. -/
theorem externalBuffer_no_jump_noop (st : BufferManagerState) (env : ExtBufEnv)
    (nm idStr : String) (isJumping : Int)
    (hname : containsSubstr nm "://" = true) (hjump : isJumping = 0) :
    externalBufferRequest st env nm idStr isJumping
      = { st := st, hostActions := [], batches := [] } := by
  have hne := containsSubstr_ne_empty nm hname
  simp [externalBufferRequest, hname, hne, hjump]

/-- Witness for C4: a concrete URI-shaped request with jump flag 0 leaves the
sample state untouched. -/
theorem externalBuffer_no_jump_noop_witness :
    externalBufferRequest exSt exEnv "file:///a.txt" "7" 0
      = { st := exSt, hostActions := [], batches := [] } :=
  externalBuffer_no_jump_noop exSt exEnv "file:///a.txt" "7" 0 (by decide) rfl

/-! ## C9: the jump path records the mapping even without a matching buffer -/

/-- When an id is not in the backend buffer list, the buffer search of the jump
path finds nothing. -/
theorem find_buffer_none (l : List Int) (i : Int) (h : i ∉ l) :
    l.find? (fun b => decide (b = (i : Int))) = none := by
  apply List.find?_eq_none.mpr
  intro b hb
  simp only [decide_eq_true_eq]
  intro he
  subst he
  exact h hb

/-- C9: in the external-buffer jump path, for a URI-shaped name with the jump
flag set, a document with no existing Document to Buffer entry, and a parsed
buffer id not present in the backend buffer list, the mapping from the
document to the parsed id is still recorded, while no buffer initialization and
no tab-option resync batch is issued, and the window maps are untouched. -/
theorem externalBuffer_jump_records_mapping (st : BufferManagerState) (env : ExtBufEnv)
    (nm idStr : String) (isJumping : Int) (i : Int) (doc : TextDocument)
    (hname : containsSubstr nm "://" = true)
    (hjump : isJumping ≠ 0)
    (hdoc : env.workspaceDocs.find? (fun d => decide (d.uriStr = nm)) = some doc)
    (hnomap : hasA st.textDocumentToBufferId doc = false)
    (hparse : parseInt10 idStr = some i)
    (hnobuf : i ∉ env.backendBuffers) :
    let r := externalBufferRequest st env nm idStr isJumping
    lookupA r.st.textDocumentToBufferId doc = some (some i)
    ∧ r.batches = []
    ∧ r.st.editorColumnsToWinId = st.editorColumnsToWinId
    ∧ r.st.noColumnEditorsToWinId = st.noColumnEditorsToWinId := by
  intro r
  have hne := containsSubstr_ne_empty nm hname
  have hfind := find_buffer_none env.backendBuffers i hnobuf
  have hr : r = externalBufferJump st env idStr doc [] := by
    show externalBufferRequest st env nm idStr isJumping = _
    simp [externalBufferRequest, hname, hne, hjump, hdoc]
  rw [hr]
  cases hse : env.shownEditor with
  | none => simp [externalBufferJump, hparse, hnomap, hfind, hse, lookupA_insertA_self]
  | some ed => simp [externalBufferJump, hparse, hnomap, hfind, hse, lookupA_insertA_self]

/-- Witness for C9: a concrete jump request whose id 7 is absent from the
backend buffer list records exDoc to 7 with no batches. -/
theorem externalBuffer_jump_records_mapping_witness :
    (let r := externalBufferRequest
        { openedEditors := [], textDocumentToBufferId := [], editorColumnsToWinId := [],
          noColumnEditorsToWinId := [], grids := [] } exEnv "file:///a.txt" "7" 1
     lookupA r.st.textDocumentToBufferId exDoc = some (some 7)
     ∧ r.batches = []
     ∧ r.st.editorColumnsToWinId = []
     ∧ r.st.noColumnEditorsToWinId = []) :=
  externalBuffer_jump_records_mapping
    { openedEditors := [], textDocumentToBufferId := [], editorColumnsToWinId := [],
      noColumnEditorsToWinId := [], grids := [] } exEnv "file:///a.txt" "7" 1 7 exDoc
    (by decide) (by decide) (by decide) (by decide) (by decide) (by decide)

/-! ## C1: idempotence of the Layout Reconciler -/

/-- An already-synced visible editor is a no-op for the first loop: its
document has a buffer and it is in the previous snapshot, so the source skips
it at line 299 after the membership test. -/
theorem processVisibleEditor_skip (prev : List TextEditor) (a : PassAcc) (e : TextEditor)
    (hbuf : hasA a.docMap e.document = true) (hmem : e ∈ prev) :
    processVisibleEditor prev a e = a := by
  unfold processVisibleEditor ensureBuffer
  rw [hbuf]
  simp only [Except.ok.injEq]
  have hc : prev.contains e = true := by
    simp [List.elem_eq_mem, hmem]
  rw [hc]
  simp

/-- The first loop is the identity when every current editor is known and was
previously visible. -/
theorem phase1_id (current : List TextEditor) :
    ∀ (prev : List TextEditor) (a : PassAcc),
    (∀ e ∈ current, hasA a.docMap e.document = true ∧ e ∈ prev) →
    phase1 prev a current = a := by
  induction current with
  | nil => intro prev a _; rfl
  | cons e tr ih =>
    intro prev a h
    have he := h e (List.mem_cons_self _ _)
    have hstep := processVisibleEditor_skip prev a e he.1 he.2
    show List.foldl (processVisibleEditor prev) a (e :: tr) = a
    rw [List.foldl_cons, hstep]
    exact ih prev a (fun x hx => h x (List.mem_cons_of_mem _ hx))

/-- A still-visible previous editor is a no-op for the second loop (the skip at
source line 348). -/
theorem processPrevEditor_skip (current : List TextEditor) (a : PassAcc) (pe : TextEditor)
    (hmem : pe ∈ current) : processPrevEditor current a pe = a := by
  unfold processPrevEditor
  have hc : current.contains pe = true := by
    simp [List.elem_eq_mem, hmem]
  rw [hc]
  simp

/-- The second loop is the identity when every previous editor is still
visible. -/
theorem phase2_id (prev : List TextEditor) :
    ∀ (current : List TextEditor) (a : PassAcc),
    (∀ e ∈ prev, e ∈ current) →
    phase2 current a prev = a := by
  induction prev with
  | nil => intro current a _; rfl
  | cons e tr ih =>
    intro current a h
    have hstep := processPrevEditor_skip current a e (h e (List.mem_cons_self _ _))
    show List.foldl (processPrevEditor current) a (e :: tr) = a
    rw [List.foldl_cons, hstep]
    exact ih current a (fun x hx => h x (List.mem_cons_of_mem _ hx))

/-- C1: when the stored previous snapshot contains exactly the current visible
editors (identity-equal handles) and every visible document already has a
buffer id, one syncLayout pass creates no buffers, creates no windows, issues
an empty final batch and no side batches, and leaves the Document to Buffer,
Column to Window and Editor to Window maps (and the backend) unchanged. -/
theorem syncLayout_pass_idempotent (st : BufferManagerState) (b : Backend)
    (current : List TextEditor)
    (hprev : ∀ e ∈ st.openedEditors, e ∈ current)
    (hcur : ∀ e ∈ current, e ∈ st.openedEditors)
    (hbuf : ∀ e ∈ current, hasA st.textDocumentToBufferId e.document = true) :
    let r := syncLayoutPass st b current
    r.createdBuffers = [] ∧ r.createdWindows = []
    ∧ r.finalBatch = [] ∧ r.sideBatches = []
    ∧ r.st.textDocumentToBufferId = st.textDocumentToBufferId
    ∧ r.st.editorColumnsToWinId = st.editorColumnsToWinId
    ∧ r.st.noColumnEditorsToWinId = st.noColumnEditorsToWinId
    ∧ r.backend = b := by
  intro r
  have h1 : phase1 st.openedEditors (initAcc st b) current = initAcc st b :=
    phase1_id current st.openedEditors (initAcc st b)
      (fun e he => ⟨hbuf e he, hcur e he⟩)
  have h2 : phase2 current (initAcc st b) st.openedEditors = initAcc st b :=
    phase2_id st.openedEditors current (initAcc st b) hprev
  have hA : syncLayoutPass st b current =
      { st := { openedEditors := current,
                textDocumentToBufferId := st.textDocumentToBufferId,
                editorColumnsToWinId := st.editorColumnsToWinId,
                noColumnEditorsToWinId := st.noColumnEditorsToWinId,
                grids := st.grids },
        backend := b, finalBatch := [], sideBatches := [],
        createdBuffers := [], createdWindows := [] } := by
    simp only [syncLayoutPass, h1, h2]
    rfl
  have hr : r = _ := hA
  rw [hr]
  exact ⟨rfl, rfl, rfl, rfl, rfl, rfl, rfl, rfl⟩

/-- Witness for C1: re-running the pass on the already-synced sample state with
the same single visible editor changes nothing. -/
theorem syncLayout_pass_idempotent_witness :
    (let r := syncLayoutPass exSt exBackend [exEd]
     r.createdBuffers = [] ∧ r.createdWindows = []
     ∧ r.finalBatch = [] ∧ r.sideBatches = []
     ∧ r.st.textDocumentToBufferId = exSt.textDocumentToBufferId
     ∧ r.st.editorColumnsToWinId = exSt.editorColumnsToWinId
     ∧ r.st.noColumnEditorsToWinId = exSt.noColumnEditorsToWinId
     ∧ r.backend = exBackend) :=
  syncLayout_pass_idempotent exSt exBackend [exEd]
    (by decide) (by decide) (by decide)

/-! ## C5: the open-file contract -/

/-- The first host call of an open-file request. -/
def openFileAct (fileName : String) : HostAction :=
  if fileName = "__vscode_new__" then HostAction.openUntitled
  else HostAction.openPath (trimStr fileName)

/-- The document an open-file request resolves. -/
def openFileDoc (env : OpenFileEnv) (fileName : String) : Option TextDocument :=
  if fileName = "__vscode_new__" then env.untitledDoc
  else env.docForPath (trimStr fileName)

/-- An open-document call does not change the visible panes. -/
theorem openFileAct_noop (h : HostState) (fileName : String) :
    applyHostAction h (openFileAct fileName) = h := by
  unfold openFileAct
  split
  · rfl
  · rfl

/-- Showing a pane leaves at least one editor visible. -/
theorem showPane_pos (v : List HostPane) (p : HostPane) : 1 ≤ (showPane v p).length := by
  rcases p with ⟨d, col⟩
  cases col with
  | none => simp [showPane]
  | some c =>
    simp only [showPane]
    split
    · next hany =>
      rw [List.length_map]
      cases v with
      | nil => simp at hany
      | cons q r => simp
    · simp

/-- A sample environment with an active editor in column 1. -/
def exOpenEnv : OpenFileEnv :=
  { activeEditor := some exEd, untitledDoc := some exDoc,
    docForPath := fun _ => some exDoc2 }

/-- Counterexample to C5 as stated: the close argument 0 is numeric and an
active editor exists, yet the handler issues no close call at all, because the
source guards the close branch with the JS truthiness of the argument (line
175), which the number 0 fails. -/
theorem openFile_zero_close_counterexample :
    openFileRequest exOpenEnv "b.txt" (CloseArg.num 0)
      = [HostAction.openPath "b.txt", HostAction.showDoc exDoc2 none]
    ∧ HostAction.revertAndCloseActiveEditor ∉
        openFileRequest exOpenEnv "b.txt" (CloseArg.num 0)
    ∧ exOpenEnv.activeEditor.isSome = true := by
  refine ⟨by decide, ?_, rfl⟩
  decide

/-- C5 (amended: a NONZERO numeric close-mode closes the current editor; the
number 0 is falsy in the source's guard and closes nothing): the sentinel name
opens a new untitled document and any other name opens the document of that
trimmed name; with a nonzero numeric close-mode and an active editor, the
current editor is closed before the document is shown and the new editor reuses
the closed editor's column; with close-mode all, all other editors are closed
only after the document has been shown, so from the show onward at least one
editor stays visible and the all case ends with exactly one editor open. -/
theorem openFile_contract (env : OpenFileEnv) (fileName : String) (close : CloseArg) :
    ((openFileRequest env fileName close).head? = some (openFileAct fileName))
    ∧ (fileName = "__vscode_new__" → openFileAct fileName = HostAction.openUntitled)
    ∧ (fileName ≠ "__vscode_new__" → openFileAct fileName = HostAction.openPath (trimStr fileName))
    ∧ (∀ n d e, close = CloseArg.num n → n ≠ 0 → env.activeEditor = some e →
        openFileDoc env fileName = some d →
        openFileRequest env fileName close
          = [openFileAct fileName, HostAction.revertAndCloseActiveEditor,
             HostAction.showDoc d e.viewColumn])
    ∧ (∀ d, close = CloseArg.all → openFileDoc env fileName = some d →
        openFileRequest env fileName close
          = [openFileAct fileName, HostAction.showDoc d none, HostAction.closeOtherEditors]
        ∧ ∀ h : HostState,
            (applyHostActions h (openFileRequest env fileName close)).visible.length = 1
            ∧ 1 ≤ (applyHostActions h [openFileAct fileName,
                HostAction.showDoc d none]).visible.length) := by
  refine ⟨?_, fun hs => by simp [openFileAct, hs], fun hs => by simp [openFileAct, hs],
    ?_, ?_⟩
  · unfold openFileRequest openFileAct
    cases hd : (if fileName = "__vscode_new__" then env.untitledDoc
        else env.docForPath fileName.trim) with
    | none => simp only [hd]; split <;> rfl
    | some d =>
      simp only [hd]
      split
      · simp
      · simp
  · intro n d e hclose hn hact hdoc
    subst hclose
    unfold openFileRequest
    unfold openFileDoc at hdoc
    rw [hdoc, hact]
    simp [openFileAct, hn]
  · intro d hclose hdoc
    subst hclose
    have hreq : openFileRequest env fileName CloseArg.all
        = [openFileAct fileName, HostAction.showDoc d none, HostAction.closeOtherEditors] := by
      unfold openFileRequest
      unfold openFileDoc at hdoc
      rw [hdoc]
      simp [openFileAct]
    refine ⟨hreq, fun h => ?_⟩
    rw [hreq]
    have hshow : applyHostActions h [openFileAct fileName, HostAction.showDoc d none]
        = { visible := showPane h.visible { doc := d, column := none },
            active := some { doc := d, column := none } } := by
      unfold applyHostActions
      rw [List.foldl_cons, openFileAct_noop]
      rfl
    constructor
    · show (applyHostActions h _).visible.length = 1
      unfold applyHostActions
      rw [List.foldl_cons, openFileAct_noop]
      rfl
    · rw [hshow]
      exact showPane_pos h.visible { doc := d, column := none }

/-- Witness for the amended C5: with an active editor in column 1, close-mode 1
closes first and shows in column 1; close-mode all shows then closes others,
ending with exactly one visible editor. -/
theorem openFile_contract_witness :
    (openFileRequest exOpenEnv "b.txt" (CloseArg.num 1)
      = [HostAction.openPath "b.txt", HostAction.revertAndCloseActiveEditor,
         HostAction.showDoc exDoc2 (some 1)])
    ∧ (applyHostActions { visible := [], active := none }
        (openFileRequest exOpenEnv "__vscode_new__" CloseArg.all)).visible.length = 1 := by
  constructor
  · have h := (openFile_contract exOpenEnv "b.txt" (CloseArg.num 1)).2.2.2.1
      1 exDoc2 exEd rfl (by decide) rfl rfl
    have ht : trimStr "b.txt" = "b.txt" := by decide
    have hv : exEd.viewColumn = some 1 := rfl
    simpa [openFileAct, ht, hv] using h
  · have h := ((openFile_contract exOpenEnv "__vscode_new__" CloseArg.all).2.2.2.2
      exDoc rfl rfl).2 { visible := [], active := none }
    exact h.1

/-! ## C7: partial-failure tolerance of a pass -/

/-- A backend whose second creation call (the scratch buffer of the new
window) fails. -/
def exFailBackend : Backend := { nextId := 1, callIdx := 0, failAt := [1] }

/-- The pass accumulator for an empty manager over that backend. -/
def exAcc : PassAcc := initAcc initManager exFailBackend

/-- The accumulator right after the buffer-creation step for exEdNoCol. -/
def exA1 : PassAcc :=
  match ensureBuffer exAcc exEdNoCol with
  | Except.ok x => x
  | Except.error x => x

/-- Counterexample to C7 as stated: processing the column-less editor of a not
yet mapped document with a backend whose window creation fails (the scratch
buffer call, index 1) creates no window, queues nothing and records no window
mapping, but the Document to Buffer mapping HAS been recorded by the earlier
buffer-creation step of the same iteration (source line 296 runs before the
try block at 305), contradicting the claim that no mapping is recorded for an
editor whose window creation raises. -/
theorem syncLayout_window_failure_counterexample :
    let r := syncLayoutPass initManager exFailBackend [exEdNoCol]
    r.createdWindows = [] ∧ r.st.noColumnEditorsToWinId = [] ∧ r.finalBatch = []
    ∧ r.st.textDocumentToBufferId = [(exDoc2, some 1)]
    ∧ initManager.textDocumentToBufferId = [] := by
  decide

/-- Fields of the accumulator unchanged by a successful buffer-ensure step
(it touches only docMap, backend, sideBatches and createdBuffers). -/
theorem ensureBuffer_ok_fields (a : PassAcc) (e : TextEditor) (a1 : PassAcc)
    (h : ensureBuffer a e = Except.ok a1) :
    a1.requests = a.requests ∧ a1.colMap = a.colMap ∧ a1.noColMap = a.noColMap
    ∧ a1.keep = a.keep ∧ a1.createdWindows = a.createdWindows := by
  unfold ensureBuffer at h
  by_cases hb : hasA a.docMap e.document
  · rw [if_pos hb] at h
    simp only [Except.ok.injEq] at h
    subst h
    exact ⟨rfl, rfl, rfl, rfl, rfl⟩
  · rw [if_neg hb] at h
    rcases hc : clientCreateBuffer a.backend with ⟨res, b1⟩
    rw [hc] at h
    cases res with
    | error code => simp at h
    | ok bufId =>
      simp only [Except.ok.injEq] at h
      subst h
      exact ⟨rfl, rfl, rfl, rfl, rfl⟩

/-- The backend calls of a failing window creation. -/
theorem createNeovimWindow_fails (b : Backend)
    (h : b.failAt.contains b.callIdx = true ∨ b.failAt.contains (b.callIdx + 1) = true) :
    ∃ b2, createNeovimWindow b = (Except.error (), b2) := by
  unfold createNeovimWindow clientCreateBuffer clientOpenWindow
  by_cases h0 : b.failAt.contains b.callIdx = true
  · rw [if_pos h0]
    exact ⟨_, rfl⟩
  · rcases h with h | h1
    · exact absurd h h0
    · rw [if_neg h0]
      simp only
      rw [if_pos h1]
      exact ⟨_, rfl⟩

/-- C7 (amended: when creating the window raises after the buffer was created
in the same iteration, the Document to Buffer mapping recorded by that earlier
step persists; the claim's no-mapping consequence holds only for the
buffer-creation failure): a buffer-creation failure is logged and leaves
everything except the backend call counter unchanged; a window-creation
failure leaves the queued requests, the window maps, the kept columns and the
created-window list unchanged while the document mapping made by the ensure
step persists; the fold continues with the remaining editors and the final
batch of the pass is still issued; no exception escapes (every step is a total
function). -/
theorem syncLayout_partial_failure (prev : List TextEditor) (a : PassAcc) (e : TextEditor) :
    (hasA a.docMap e.document = false →
      a.backend.failAt.contains a.backend.callIdx = true →
      processVisibleEditor prev a e
        = { a with backend := { a.backend with callIdx := a.backend.callIdx + 1 } })
    ∧ (∀ a1, ensureBuffer a e = Except.ok a1 →
        e ∉ prev →
        (¬ vcTruthy e.viewColumn = true ∨ hasA a1.colMap (vcVal e.viewColumn) = false) →
        (a1.backend.failAt.contains a1.backend.callIdx = true ∨
          a1.backend.failAt.contains (a1.backend.callIdx + 1) = true) →
        (processVisibleEditor prev a e).requests = a.requests
        ∧ (processVisibleEditor prev a e).colMap = a.colMap
        ∧ (processVisibleEditor prev a e).noColMap = a.noColMap
        ∧ (processVisibleEditor prev a e).keep = a.keep
        ∧ (processVisibleEditor prev a e).createdWindows = a.createdWindows
        ∧ (processVisibleEditor prev a e).docMap = a1.docMap)
    ∧ (∀ rest, phase1 prev a (e :: rest) = phase1 prev (processVisibleEditor prev a e) rest)
    ∧ (∀ st b current, (syncLayoutPass st b current).finalBatch
        = (phase2 current (phase1 st.openedEditors (initAcc st b) current)
            st.openedEditors).requests) := by
  refine ⟨?_, ?_, fun rest => rfl, fun st b current => rfl⟩
  · intro hmiss hfail
    unfold processVisibleEditor ensureBuffer clientCreateBuffer
    rw [hmiss]
    simp only [Bool.false_eq_true, if_false, hfail, if_pos]
  · intro a1 hok hprev hcreate hfail
    have hfields := ensureBuffer_ok_fields a e a1 hok
    have hnc : prev.contains e = false := by
      rw [Bool.eq_false_iff]
      intro hc
      exact hprev (by simpa [List.elem_eq_mem] using hc)
    obtain ⟨b2, hw⟩ := createNeovimWindow_fails a1.backend hfail
    have hstep : processVisibleEditor prev a e = { a1 with backend := b2 } := by
      unfold processVisibleEditor
      rw [hok]
      simp only [hnc, Bool.false_eq_true, if_false]
      unfold assignWindow
      rw [if_pos ?side]
      case side =>
        rcases hcreate with h | h
        · exact Or.inl (by simpa using h)
        · exact Or.inr h
      rw [hw]
    rw [hstep]
    exact ⟨hfields.1, hfields.2.1, hfields.2.2.1, hfields.2.2.2.1,
      hfields.2.2.2.2, rfl⟩

/-- Witness for the amended C7: the buffer-failure clause at a backend whose
first call fails, and the window-failure clause at exFailBackend, both at
concrete inputs. -/
theorem syncLayout_partial_failure_witness :
    (processVisibleEditor [] (initAcc initManager { nextId := 1, callIdx := 0, failAt := [0] })
        exEdNoCol
      = { initAcc initManager { nextId := 1, callIdx := 0, failAt := [0] } with
          backend := { nextId := 1, callIdx := 1, failAt := [0] } })
    ∧ ((processVisibleEditor [] exAcc exEdNoCol).requests = exAcc.requests
       ∧ (processVisibleEditor [] exAcc exEdNoCol).noColMap = exAcc.noColMap
       ∧ (processVisibleEditor [] exAcc exEdNoCol).docMap = exA1.docMap) := by
  constructor
  · exact (syncLayout_partial_failure []
      (initAcc initManager { nextId := 1, callIdx := 0, failAt := [0] }) exEdNoCol).1
      (by decide) (by decide)
  · have h := (syncLayout_partial_failure [] exAcc exEdNoCol).2.1 exA1
      rfl (by decide) (Or.inl (by decide)) (Or.inl (by decide))
    exact ⟨h.1, h.2.2.1, h.2.2.2.2.2⟩

/-! ## C2: cleanup on close and on invisibility -/

/-- The window-map entry of an editor: by column when one exists, by the
editor handle otherwise (the lookup shape of source lines 364-366). -/
def winKeyLookup (a : PassAcc) (pe : TextEditor) : Option Int :=
  if vcTruthy pe.viewColumn then lookupA a.colMap (vcVal pe.viewColumn)
  else lookupA a.noColMap pe

/-- The doc-cleanup step changes only the document map. -/
theorem ppeDoc_fields (cur : List TextEditor) (a : PassAcc) (pe : TextEditor) :
    (ppeDocStep cur a pe).colMap = a.colMap ∧ (ppeDocStep cur a pe).noColMap = a.noColMap
    ∧ (ppeDocStep cur a pe).keep = a.keep ∧ (ppeDocStep cur a pe).requests = a.requests := by
  unfold ppeDocStep
  split <;> exact ⟨rfl, rfl, rfl, rfl⟩

/-- The document map after the doc-cleanup step. -/
theorem ppeDoc_docMap (cur : List TextEditor) (a : PassAcc) (pe : TextEditor) :
    (ppeDocStep cur a pe).docMap =
      if cur.any (fun e => e.document = pe.document) then a.docMap
      else eraseA a.docMap pe.document := by
  unfold ppeDocStep
  split <;> rfl

/-- The window-cleanup step changes neither the document map nor the kept
columns. -/
theorem ppeWin_fields (a : PassAcc) (pe : TextEditor) :
    (ppeWinStep a pe).docMap = a.docMap ∧ (ppeWinStep a pe).keep = a.keep := by
  unfold ppeWinStep
  repeat first
  | exact ⟨rfl, rfl⟩
  | split

/-- The window-cleanup step only appends to the request queue. -/
theorem ppeWin_requests_mono (a : PassAcc) (pe : TextEditor) :
    ∃ ext, (ppeWinStep a pe).requests = a.requests ++ ext := by
  unfold ppeWinStep
  split
  case isFalse => exact ⟨[], by simp⟩
  case isTrue =>
    split
    case h_1 => exact ⟨[], by simp⟩
    case h_2 w' hd =>
      by_cases hw0 : w' = 0
      · rw [if_pos hw0]
        exact ⟨[], by simp⟩
      · rw [if_neg hw0]
        by_cases hvp : vcTruthy pe.viewColumn = true
        · rw [if_pos hvp]
          exact ⟨_, rfl⟩
        · rw [if_neg hvp]
          exact ⟨_, rfl⟩

/-- The window-cleanup step leaves each window map unchanged or erases the
processed editor's own key. -/
theorem ppeWin_winmaps (a : PassAcc) (pe : TextEditor) :
    ((ppeWinStep a pe).colMap = a.colMap
      ∨ (ppeWinStep a pe).colMap = eraseA a.colMap (vcVal pe.viewColumn))
    ∧ ((ppeWinStep a pe).noColMap = a.noColMap
      ∨ (ppeWinStep a pe).noColMap = eraseA a.noColMap pe) := by
  unfold ppeWinStep
  repeat first
  | exact ⟨Or.inl rfl, Or.inl rfl⟩
  | exact ⟨Or.inr rfl, Or.inl rfl⟩
  | exact ⟨Or.inl rfl, Or.inr rfl⟩
  | split

/-- The window lookup of an editor depends only on the two window maps. -/
theorem winKey_congr (a a' : PassAcc) (pe : TextEditor)
    (hc : a'.colMap = a.colMap) (hn : a'.noColMap = a.noColMap) :
    winKeyLookup a' pe = winKeyLookup a pe := by
  unfold winKeyLookup
  rw [hc, hn]

/-- The second loop never changes the kept-column set. -/
theorem ppe_keep (cur : List TextEditor) (a : PassAcc) (pe : TextEditor) :
    (processPrevEditor cur a pe).keep = a.keep := by
  unfold processPrevEditor
  split
  · rfl
  · rw [(ppeWin_fields _ _).2, (ppeDoc_fields cur a pe).2.2.1]

/-- The second loop only appends to the request queue. -/
theorem ppe_requests_mono (cur : List TextEditor) (a : PassAcc) (pe : TextEditor) :
    ∃ ext, (processPrevEditor cur a pe).requests = a.requests ++ ext := by
  unfold processPrevEditor
  split
  · exact ⟨[], by simp⟩
  · obtain ⟨ext, hext⟩ := ppeWin_requests_mono (ppeDocStep cur a pe) pe
    exact ⟨ext, by rw [hext, (ppeDoc_fields cur a pe).2.2.2]⟩

/-- The document map after one iteration of the second loop: erased exactly
when the previous editor is gone and its document is shown by no current
editor. -/
theorem ppe_docMap (cur : List TextEditor) (a : PassAcc) (pe : TextEditor) :
    (processPrevEditor cur a pe).docMap =
      if cur.contains pe then a.docMap
      else if cur.any (fun e => e.document = pe.document) then a.docMap
      else eraseA a.docMap pe.document := by
  unfold processPrevEditor
  split
  · rfl
  · rw [(ppeWin_fields _ _).1, ppeDoc_docMap]

/-- The two window maps after one iteration of the second loop: each is either
unchanged or has the processed editor's own key erased. -/
theorem ppe_winmaps (cur : List TextEditor) (a : PassAcc) (pe : TextEditor) :
    ((processPrevEditor cur a pe).colMap = a.colMap
      ∨ (processPrevEditor cur a pe).colMap = eraseA a.colMap (vcVal pe.viewColumn))
    ∧ ((processPrevEditor cur a pe).noColMap = a.noColMap
      ∨ (processPrevEditor cur a pe).noColMap = eraseA a.noColMap pe) := by
  unfold processPrevEditor
  split
  · exact ⟨Or.inl rfl, Or.inl rfl⟩
  · have hd := ppeDoc_fields cur a pe
    have hw := ppeWin_winmaps (ppeDocStep cur a pe) pe
    constructor
    · rcases hw.1 with h | h
      · exact Or.inl (by rw [h, hd.1])
      · exact Or.inr (by rw [h, hd.1])
    · rcases hw.2 with h | h
      · exact Or.inl (by rw [h, hd.2.1])
      · exact Or.inr (by rw [h, hd.2.1])

/-- Crux of the cleanup proof: across one window-cleanup step, an editor's
window entry is either untouched, or it has been erased and its window-close
request queued. -/
theorem ppeWin_winKey_cases (a : PassAcc) (p pe : TextEditor) (w : Int)
    (h : winKeyLookup a pe = some w) :
    winKeyLookup (ppeWinStep a p) pe = some w
    ∨ (NvimRequest.winClose w true ∈ (ppeWinStep a p).requests
       ∧ winKeyLookup (ppeWinStep a p) pe = none) := by
  unfold ppeWinStep
  split
  case isFalse => exact Or.inl h
  case isTrue hkept =>
  split
  case h_1 => exact Or.inl h
  case h_2 w' hd =>
  by_cases hw0 : w' = 0
  · rw [if_pos hw0]
    exact Or.inl h
  · rw [if_neg hw0]
    by_cases hvp : vcTruthy p.viewColumn = true
    · rw [if_pos hvp]
      rw [if_pos hvp] at hd
      by_cases hvpe : vcTruthy pe.viewColumn = true
      · by_cases hcc : vcVal p.viewColumn = vcVal pe.viewColumn
        · have hww : w' = w := by
            rw [hcc] at hd
            unfold winKeyLookup at h
            rw [if_pos hvpe] at h
            rw [hd] at h
            exact Option.some.inj h
          subst hww
          refine Or.inr ⟨by simp, ?_⟩
          unfold winKeyLookup
          rw [if_pos hvpe]
          simp only
          rw [hcc]
          exact lookupA_eraseA_self _ _
        · refine Or.inl ?_
          unfold winKeyLookup at h ⊢
          rw [if_pos hvpe] at h ⊢
          simp only
          rw [lookupA_eraseA_ne _ _ _ hcc]
          exact h
      · refine Or.inl ?_
        unfold winKeyLookup at h ⊢
        rw [if_neg hvpe] at h ⊢
        exact h
    · rw [if_neg hvp]
      rw [if_neg hvp] at hd
      by_cases hvpe : vcTruthy pe.viewColumn = true
      · refine Or.inl ?_
        unfold winKeyLookup at h ⊢
        rw [if_pos hvpe] at h ⊢
        exact h
      · by_cases hpp : p = pe
        · have hww : w' = w := by
            rw [hpp] at hd
            unfold winKeyLookup at h
            rw [if_neg hvpe] at h
            rw [hd] at h
            exact Option.some.inj h
          subst hww
          refine Or.inr ⟨by simp, ?_⟩
          unfold winKeyLookup
          rw [if_neg hvpe]
          simp only
          rw [hpp]
          exact lookupA_eraseA_self _ _
        · refine Or.inl ?_
          unfold winKeyLookup at h ⊢
          rw [if_neg hvpe] at h ⊢
          simp only
          rw [lookupA_eraseA_ne _ _ _ hpp]
          exact h

/-- The same, across one full iteration of the second loop. -/
theorem ppe_winKey_cases (cur : List TextEditor) (a : PassAcc) (p pe : TextEditor) (w : Int)
    (h : winKeyLookup a pe = some w) :
    winKeyLookup (processPrevEditor cur a p) pe = some w
    ∨ (NvimRequest.winClose w true ∈ (processPrevEditor cur a p).requests
       ∧ winKeyLookup (processPrevEditor cur a p) pe = none) := by
  unfold processPrevEditor
  split
  · exact Or.inl h
  · have hd := ppeDoc_fields cur a p
    have hk : winKeyLookup (ppeDocStep cur a p) pe = some w := by
      rw [winKey_congr a (ppeDocStep cur a p) pe hd.1 hd.2.1]
      exact h
    exact ppeWin_winKey_cases (ppeDocStep cur a p) p pe w hk

/-- A lookup that already misses survives an erase. -/
theorem lookupA_eraseA_none {α β : Type} [DecidableEq α] (m : AList α β) (k d : α)
    (h : lookupA m d = none) : lookupA (eraseA m k) d = none := by
  by_cases hk : k = d
  · rw [hk]
    exact lookupA_eraseA_self m d
  · rw [lookupA_eraseA_ne m k d hk]
    exact h

/-- On its own turn, a gone editor whose key was not kept and still has a
nonzero window id gets that window closed and its mapping removed. -/
theorem ppeWin_closes_self (a : PassAcc) (pe : TextEditor) (w : Int)
    (hnk : ¬ vcTruthy pe.viewColumn = true ∨ a.keep.contains (vcVal pe.viewColumn) = false)
    (hlk : winKeyLookup a pe = some w) (hw : w ≠ 0) :
    NvimRequest.winClose w true ∈ (ppeWinStep a pe).requests
    ∧ winKeyLookup (ppeWinStep a pe) pe = none := by
  unfold ppeWinStep
  rw [if_pos hnk]
  have hlk' : (if vcTruthy pe.viewColumn then lookupA a.colMap (vcVal pe.viewColumn)
      else lookupA a.noColMap pe) = some w := hlk
  simp only [hlk']
  rw [if_neg hw]
  by_cases hv : vcTruthy pe.viewColumn = true
  · rw [if_pos hv]
    constructor
    · simp
    · unfold winKeyLookup
      rw [if_pos hv]
      exact lookupA_eraseA_self _ _
  · rw [if_neg hv]
    constructor
    · simp
    · unfold winKeyLookup
      rw [if_neg hv]
      exact lookupA_eraseA_self _ _

/-- The same, for one full iteration of the second loop. -/
theorem ppe_closes_self (cur : List TextEditor) (a : PassAcc) (pe : TextEditor) (w : Int)
    (hnc : cur.contains pe = false)
    (hnk : ¬ vcTruthy pe.viewColumn = true ∨ a.keep.contains (vcVal pe.viewColumn) = false)
    (hlk : winKeyLookup a pe = some w) (hw : w ≠ 0) :
    NvimRequest.winClose w true ∈ (processPrevEditor cur a pe).requests
    ∧ winKeyLookup (processPrevEditor cur a pe) pe = none := by
  unfold processPrevEditor
  simp only [hnc, Bool.false_eq_true, if_false]
  have hd := ppeDoc_fields cur a pe
  refine ppeWin_closes_self (ppeDocStep cur a pe) pe w ?_ ?_ hw
  · rw [hd.2.2.1]
    exact hnk
  · rw [winKey_congr a (ppeDocStep cur a pe) pe hd.1 hd.2.1]
    exact hlk

/-- The kept-column set is constant across the whole second loop. -/
theorem phase2_keep (L : List TextEditor) :
    ∀ (cur : List TextEditor) (a : PassAcc), (phase2 cur a L).keep = a.keep := by
  induction L with
  | nil => intro cur a; rfl
  | cons p tr ih =>
    intro cur a
    show (phase2 cur (processPrevEditor cur a p) tr).keep = a.keep
    rw [ih cur (processPrevEditor cur a p), ppe_keep]

/-- The second loop only appends to the request queue. -/
theorem phase2_requests_mono (L : List TextEditor) :
    ∀ (cur : List TextEditor) (a : PassAcc),
    ∃ ext, (phase2 cur a L).requests = a.requests ++ ext := by
  induction L with
  | nil => intro cur a; exact ⟨[], by simp [phase2]⟩
  | cons p tr ih =>
    intro cur a
    obtain ⟨e1, he1⟩ := ppe_requests_mono cur a p
    obtain ⟨e2, he2⟩ := ih cur (processPrevEditor cur a p)
    refine ⟨e1 ++ e2, ?_⟩
    show (phase2 cur (processPrevEditor cur a p) tr).requests = _
    rw [he2, he1, List.append_assoc]

/-- The document entry of a still-shown document survives the second loop. -/
theorem phase2_docMap_shown (L : List TextEditor) :
    ∀ (cur : List TextEditor) (a : PassAcc) (d : TextDocument),
    (∃ e ∈ cur, e.document = d) →
    lookupA (phase2 cur a L).docMap d = lookupA a.docMap d := by
  induction L with
  | nil => intro cur a d _; rfl
  | cons p tr ih =>
    intro cur a d hshown
    show lookupA (phase2 cur (processPrevEditor cur a p) tr).docMap d = _
    rw [ih cur (processPrevEditor cur a p) d hshown, ppe_docMap]
    split
    · rfl
    · split
      · rfl
      · next hany =>
        have hne : p.document ≠ d := by
          intro he
          obtain ⟨e, hmem, hdoc⟩ := hshown
          apply hany
          rw [List.any_eq_true]
          exact ⟨e, hmem, by simp [hdoc, he]⟩
        exact lookupA_eraseA_ne a.docMap p.document d hne

/-- A missing document entry stays missing across the second loop. -/
theorem phase2_docMap_none (L : List TextEditor) :
    ∀ (cur : List TextEditor) (a : PassAcc) (d : TextDocument),
    lookupA a.docMap d = none →
    lookupA (phase2 cur a L).docMap d = none := by
  induction L with
  | nil => intro cur a d h; exact h
  | cons p tr ih =>
    intro cur a d h
    show lookupA (phase2 cur (processPrevEditor cur a p) tr).docMap d = none
    apply ih
    rw [ppe_docMap]
    split
    · exact h
    · split
      · exact h
      · exact lookupA_eraseA_none a.docMap p.document d h

/-- The document entry of a gone, no-longer-shown document is removed by the
second loop. -/
theorem phase2_docMap_gone (L : List TextEditor) :
    ∀ (cur : List TextEditor) (a : PassAcc) (pe : TextEditor),
    pe ∈ L → pe ∉ cur → (∀ e ∈ cur, e.document ≠ pe.document) →
    lookupA (phase2 cur a L).docMap pe.document = none := by
  induction L with
  | nil => intro cur a pe h; exact absurd h (List.not_mem_nil pe)
  | cons p tr ih =>
    intro cur a pe hmem hgone hunshown
    rcases List.mem_cons.mp hmem with hpe | hpe
    · subst hpe
      show lookupA (phase2 cur (processPrevEditor cur a pe) tr).docMap pe.document = none
      apply phase2_docMap_none
      rw [ppe_docMap]
      have hnc : cur.contains pe = false := by
        rw [Bool.eq_false_iff]
        intro hc
        exact hgone (by simpa [List.elem_eq_mem] using hc)
      have hany : cur.any (fun e => e.document = pe.document) = false := by
        rw [Bool.eq_false_iff]
        intro hc
        obtain ⟨e, hmem2, hdoc⟩ := List.any_eq_true.mp hc
        exact hunshown e hmem2 (by simpa using hdoc)
      rw [hnc, hany]
      simp only [Bool.false_eq_true, if_false]
      exact lookupA_eraseA_self _ _
    · show lookupA (phase2 cur (processPrevEditor cur a p) tr).docMap pe.document = none
      exact ih cur (processPrevEditor cur a p) pe hpe hgone hunshown

/-- A missing window entry stays missing across the second loop. -/
theorem phase2_winKey_none (L : List TextEditor) :
    ∀ (cur : List TextEditor) (a : PassAcc) (pe : TextEditor),
    winKeyLookup a pe = none →
    winKeyLookup (phase2 cur a L) pe = none := by
  induction L with
  | nil => intro cur a pe h; exact h
  | cons p tr ih =>
    intro cur a pe h
    show winKeyLookup (phase2 cur (processPrevEditor cur a p) tr) pe = none
    apply ih
    have hw := ppe_winmaps cur a p
    unfold winKeyLookup at h ⊢
    by_cases hv : vcTruthy pe.viewColumn = true
    · rw [if_pos hv] at h ⊢
      rcases hw.1 with hc | hc
      · rw [hc]; exact h
      · rw [hc]; exact lookupA_eraseA_none _ _ _ h
    · rw [if_neg hv] at h ⊢
      rcases hw.2 with hc | hc
      · rw [hc]; exact h
      · rw [hc]; exact lookupA_eraseA_none _ _ _ h

/-- Main cleanup lemma: a gone editor whose key was not kept and which has a
nonzero window id gets a window-close request queued by the second loop, and
its window mapping removed. -/
theorem phase2_close (L : List TextEditor) :
    ∀ (cur : List TextEditor) (a : PassAcc) (pe : TextEditor) (w : Int),
    pe ∈ L → pe ∉ cur →
    (¬ vcTruthy pe.viewColumn = true ∨ a.keep.contains (vcVal pe.viewColumn) = false) →
    winKeyLookup a pe = some w → w ≠ 0 →
    NvimRequest.winClose w true ∈ (phase2 cur a L).requests
    ∧ winKeyLookup (phase2 cur a L) pe = none := by
  induction L with
  | nil => intro cur a pe w h; exact absurd h (List.not_mem_nil pe)
  | cons p tr ih =>
    intro cur a pe w hmem hgone hnk hlk hw
    have hstep : phase2 cur a (p :: tr) = phase2 cur (processPrevEditor cur a p) tr := rfl
    rcases List.mem_cons.mp hmem with hpe | hpe
    · subst hpe
      have hnc : cur.contains pe = false := by
        rw [Bool.eq_false_iff]
        intro hc
        exact hgone (by simpa [List.elem_eq_mem] using hc)
      have hclose := ppe_closes_self cur a pe w hnc hnk hlk hw
      rw [hstep]
      constructor
      · obtain ⟨ext, hext⟩ := phase2_requests_mono tr cur (processPrevEditor cur a pe)
        rw [hext]
        exact List.mem_append_left _ hclose.1
      · exact phase2_winKey_none tr cur _ pe hclose.2
    · rcases ppe_winKey_cases cur a p pe w hlk with hcase | hcase
      · rw [hstep]
        refine ih cur (processPrevEditor cur a p) pe w hpe hgone ?_ hcase hw
        rw [ppe_keep]
        exact hnk
      · rw [hstep]
        constructor
        · obtain ⟨ext, hext⟩ := phase2_requests_mono tr cur (processPrevEditor cur a p)
          rw [hext]
          exact List.mem_append_left _ hcase.1
        · exact phase2_winKey_none tr cur _ pe hcase.2

/-- C2: (1) a document-close notification removes the Document to Buffer entry
of that document and touches nothing else; (2) in every syncLayout pass, for
every editor present in the previous snapshot but absent from the current one,
the Document to Buffer mapping of its document ends up removed when no
currently visible editor shows that document and is left at its value from the
first loop when some visible editor still shows it; and when its column (or
its column-less identity) was not kept by the first loop and it has a nonzero
window id there, a window-close request for that id is queued in the issued
batch and the Column to Window (or Editor to Window) entry is removed. -/
theorem cleanup_on_close (st : BufferManagerState) (b : Backend)
    (current : List TextEditor) (d : TextDocument) (pe : TextEditor) (w : Int) :
    (lookupA (onDidCloseTextDocument st d).textDocumentToBufferId d = none
      ∧ (onDidCloseTextDocument st d).editorColumnsToWinId = st.editorColumnsToWinId
      ∧ (onDidCloseTextDocument st d).noColumnEditorsToWinId = st.noColumnEditorsToWinId
      ∧ (onDidCloseTextDocument st d).openedEditors = st.openedEditors)
    ∧ (let a1 := phase1 st.openedEditors (initAcc st b) current
       let r := syncLayoutPass st b current
       pe ∈ st.openedEditors → pe ∉ current →
       ((∀ e ∈ current, e.document ≠ pe.document) →
          lookupA r.st.textDocumentToBufferId pe.document = none)
       ∧ ((∃ e ∈ current, e.document = pe.document) →
          lookupA r.st.textDocumentToBufferId pe.document = lookupA a1.docMap pe.document)
       ∧ ((¬ vcTruthy pe.viewColumn = true
            ∨ a1.keep.contains (vcVal pe.viewColumn) = false) →
          winKeyLookup a1 pe = some w → w ≠ 0 →
          NvimRequest.winClose w true ∈ r.finalBatch
          ∧ (if vcTruthy pe.viewColumn then
               lookupA r.st.editorColumnsToWinId (vcVal pe.viewColumn)
             else lookupA r.st.noColumnEditorsToWinId pe) = none)) := by
  constructor
  · exact ⟨lookupA_eraseA_self _ _, rfl, rfl, rfl⟩
  · intro a1 r hmem hgone
    refine ⟨?_, ?_, ?_⟩
    · intro hunshown
      exact phase2_docMap_gone st.openedEditors current a1 pe hmem hgone hunshown
    · intro hshown
      exact phase2_docMap_shown st.openedEditors current a1 pe.document hshown
    · intro hnk hlk hw
      exact phase2_close st.openedEditors current a1 pe w hmem hgone hnk hlk hw

/-- Witness for C2: closing exDoc drops its entry; a pass that makes every
editor invisible closes window 3 of column 1 and drops both mappings. -/
theorem cleanup_on_close_witness :
    lookupA (onDidCloseTextDocument exSt exDoc).textDocumentToBufferId exDoc = none
    ∧ NvimRequest.winClose 3 true ∈ (syncLayoutPass exSt exBackend []).finalBatch
    ∧ lookupA (syncLayoutPass exSt exBackend []).st.editorColumnsToWinId 1 = none
    ∧ lookupA (syncLayoutPass exSt exBackend []).st.textDocumentToBufferId exDoc = none := by
  have h := cleanup_on_close exSt exBackend [] exDoc exEd 3
  have h2 := h.2 (by decide) (by decide)
  have h3 := h2.2.2 (by decide) (by decide) (by decide)
  have h4 := h2.1 (by decide)
  exact ⟨h.1.1, h3.1, h3.2, h4⟩

/-! ## C6: mapping uniqueness -/

/-- Window-map well-formedness: all window ids below the backend's fresh-id
bound, column-less editors' ids disjoint from column ids, and distinct
column-less editors holding distinct ids. -/
def WInv (colMap : AList Int Int) (noColMap : AList TextEditor Int) (bound : Int) : Prop :=
  (∀ p ∈ colMap, p.2 < bound) ∧ (∀ p ∈ noColMap, p.2 < bound)
  ∧ (∀ p ∈ noColMap, ∀ q ∈ colMap, p.2 ≠ q.2)
  ∧ (∀ p ∈ noColMap, ∀ q ∈ noColMap, p.1 ≠ q.1 → p.2 ≠ q.2)

/-- The full accumulator invariant maintained by a pass. -/
def MInv (a : PassAcc) : Prop :=
  NodupKeys a.docMap ∧ NodupKeys a.colMap ∧ NodupKeys a.noColMap
  ∧ WInv a.colMap a.noColMap a.backend.nextId

theorem winv_mono (c : AList Int Int) (n : AList TextEditor Int) (b b' : Int)
    (hle : b ≤ b') (h : WInv c n b) : WInv c n b' := by
  obtain ⟨h1, h2, h3, h4⟩ := h
  exact ⟨fun p hp => lt_of_lt_of_le (h1 p hp) hle,
    fun p hp => lt_of_lt_of_le (h2 p hp) hle, h3, h4⟩

theorem winv_insert_col (c : AList Int Int) (n : AList TextEditor Int) (b : Int)
    (k : Int) (w : Int) (hw : b ≤ w) (h : WInv c n b) :
    WInv (insertA c k w) n (w + 1) := by
  obtain ⟨h1, h2, h3, h4⟩ := h
  refine ⟨?_, ?_, ?_, h4⟩
  · intro p hp
    rcases mem_insertA c k w p hp with hkv | hm
    · rw [hkv]; exact lt_add_one w
    · exact lt_of_lt_of_le (h1 p hm) (le_trans hw (le_of_lt (lt_add_one w)))
  · intro p hp
    exact lt_of_lt_of_le (h2 p hp) (le_trans hw (le_of_lt (lt_add_one w)))
  · intro p hp q hq
    rcases mem_insertA c k w q hq with hkv | hm
    · rw [hkv]
      exact ne_of_lt (lt_of_lt_of_le (h2 p hp) hw)
    · exact h3 p hp q hm

theorem winv_insert_noCol (c : AList Int Int) (n : AList TextEditor Int) (b : Int)
    (e : TextEditor) (w : Int) (hw : b ≤ w) (h : WInv c n b) :
    WInv c (insertA n e w) (w + 1) := by
  obtain ⟨h1, h2, h3, h4⟩ := h
  refine ⟨?_, ?_, ?_, ?_⟩
  · intro p hp
    exact lt_of_lt_of_le (h1 p hp) (le_trans hw (le_of_lt (lt_add_one w)))
  · intro p hp
    rcases mem_insertA n e w p hp with hkv | hm
    · rw [hkv]; exact lt_add_one w
    · exact lt_of_lt_of_le (h2 p hm) (le_trans hw (le_of_lt (lt_add_one w)))
  · intro p hp q hq
    rcases mem_insertA n e w p hp with hkv | hm
    · rw [hkv]
      exact Ne.symm (ne_of_lt (lt_of_lt_of_le (h1 q hq) hw))
    · exact h3 p hm q hq
  · intro p hp q hq hne
    rcases mem_insertA n e w p hp with hkv1 | hm1 <;>
      rcases mem_insertA n e w q hq with hkv2 | hm2
    · rw [hkv1, hkv2] at hne
      exact absurd rfl hne
    · rw [hkv1]
      exact Ne.symm (ne_of_lt (lt_of_lt_of_le (h2 q hm2) hw))
    · rw [hkv2]
      exact ne_of_lt (lt_of_lt_of_le (h2 p hm1) hw)
    · exact h4 p hm1 q hm2 hne

theorem winv_erase_col (c : AList Int Int) (n : AList TextEditor Int) (b : Int)
    (k : Int) (h : WInv c n b) : WInv (eraseA c k) n b := by
  obtain ⟨h1, h2, h3, h4⟩ := h
  exact ⟨fun p hp => h1 p (mem_eraseA c k p hp).1, h2,
    fun p hp q hq => h3 p hp q (mem_eraseA c k q hq).1, h4⟩

theorem winv_erase_noCol (c : AList Int Int) (n : AList TextEditor Int) (b : Int)
    (e : TextEditor) (h : WInv c n b) : WInv c (eraseA n e) b := by
  obtain ⟨h1, h2, h3, h4⟩ := h
  exact ⟨h1, fun p hp => h2 p (mem_eraseA n e p hp).1,
    fun p hp q hq => h3 p (mem_eraseA n e p hp).1 q hq,
    fun p hp q hq => h4 p (mem_eraseA n e p hp).1 q (mem_eraseA n e q hq).1⟩

/-- Outcomes of the buffer-creation RPC. -/
theorem clientCreateBuffer_cases (b : Backend) :
    (∃ b', clientCreateBuffer b = (Except.error 0, b') ∧ b'.nextId = b.nextId)
    ∨ (∃ b', clientCreateBuffer b = (Except.ok b.nextId, b') ∧ b'.nextId = b.nextId + 1) := by
  unfold clientCreateBuffer
  split
  · exact Or.inl ⟨_, rfl, rfl⟩
  · exact Or.inr ⟨_, rfl, rfl⟩

/-- Outcomes of window creation: a failure advances only the backend (without
lowering the bound), a success returns a fresh id one below the new bound. -/
theorem cnw_cases (b : Backend) :
    (∃ b2, createNeovimWindow b = (Except.error (), b2) ∧ b.nextId ≤ b2.nextId)
    ∨ (∃ w batch b2, createNeovimWindow b = (Except.ok (w, batch), b2)
        ∧ b.nextId ≤ w ∧ b2.nextId = w + 1) := by
  unfold createNeovimWindow clientCreateBuffer clientOpenWindow
  by_cases h0 : b.failAt.contains b.callIdx = true
  · rw [if_pos h0]
    exact Or.inl ⟨_, rfl, le_refl _⟩
  · rw [if_neg h0]
    simp only
    by_cases h1 : b.failAt.contains (b.callIdx + 1) = true
    · rw [if_pos h1]
      exact Or.inl ⟨_, rfl, le_of_lt (lt_add_one _)⟩
    · rw [if_neg h1]
      exact Or.inr ⟨b.nextId + 1, _, _, rfl, le_of_lt (lt_add_one _), rfl⟩

/-- The buffer-ensure step preserves the accumulator invariant in both
outcomes. -/
theorem ensureBuffer_minv (a : PassAcc) (e : TextEditor) (h : MInv a) :
    (∀ a1, ensureBuffer a e = Except.error a1 → MInv a1)
    ∧ (∀ a1, ensureBuffer a e = Except.ok a1 → MInv a1) := by
  obtain ⟨hd, hc, hn, hw⟩ := h
  unfold ensureBuffer
  split
  · constructor
    · intro a1 ha1
      simp at ha1
    · intro a1 ha1
      simp only [Except.ok.injEq] at ha1
      subst ha1
      exact ⟨hd, hc, hn, hw⟩
  · rcases clientCreateBuffer_cases a.backend with ⟨b', hb, hnext⟩ | ⟨b', hb, hnext⟩
    · rw [hb]
      constructor
      · intro a1 ha1
        simp only [Except.error.injEq] at ha1
        subst ha1
        exact ⟨hd, hc, hn, by rw [hnext] at *; exact hw⟩
      · intro a1 ha1
        simp at ha1
    · rw [hb]
      constructor
      · intro a1 ha1
        simp at ha1
      · intro a1 ha1
        simp only [Except.ok.injEq] at ha1
        subst ha1
        refine ⟨nodupKeys_insertA _ _ _ hd, hc, hn, ?_⟩
        show WInv a.colMap a.noColMap b'.nextId
        rw [hnext]
        exact winv_mono _ _ _ _ (le_of_lt (lt_add_one _)) hw

/-- The final-assignment step changes only the kept columns and the queue. -/
theorem finishAssign_fields (a : PassAcc) (e : TextEditor) (wid : Option Int) (bid : JSNum) :
    (finishAssign a e wid bid).docMap = a.docMap
    ∧ (finishAssign a e wid bid).colMap = a.colMap
    ∧ (finishAssign a e wid bid).noColMap = a.noColMap
    ∧ (finishAssign a e wid bid).backend = a.backend := by
  unfold finishAssign
  repeat first
  | exact ⟨rfl, rfl, rfl, rfl⟩
  | split

/-- MInv depends only on the three maps and the backend. -/
theorem minv_congr (a a' : PassAcc) (hd : a'.docMap = a.docMap) (hc : a'.colMap = a.colMap)
    (hn : a'.noColMap = a.noColMap) (hb : a'.backend = a.backend) (h : MInv a) : MInv a' := by
  unfold MInv
  rw [hd, hc, hn, hb]
  exact h

/-- Window assignment preserves the accumulator invariant. -/
theorem assignWindow_minv (a : PassAcc) (e : TextEditor) (bid : JSNum) (h : MInv a) :
    MInv (assignWindow a e bid) := by
  obtain ⟨hd, hc, hn, hw⟩ := h
  unfold assignWindow
  by_cases hcond : (¬ vcTruthy e.viewColumn = true ∨ hasA a.colMap (vcVal e.viewColumn) = false)
  · rw [if_pos hcond]
    rcases cnw_cases a.backend with ⟨b2, hcw, hle⟩ | ⟨w, batch, b2, hcw, hwle, hnext⟩
    · rw [hcw]
      exact ⟨hd, hc, hn, winv_mono _ _ _ _ hle hw⟩
    · rw [hcw]
      show MInv (if vcTruthy e.viewColumn then
          finishAssign { a with backend := b2,
                                sideBatches := a.sideBatches ++ [batch],
                                createdWindows := a.createdWindows ++ [w],
                                colMap := insertA a.colMap (vcVal e.viewColumn) w }
            e (some w) bid
        else
          finishAssign { a with backend := b2,
                                sideBatches := a.sideBatches ++ [batch],
                                createdWindows := a.createdWindows ++ [w],
                                noColMap := insertA a.noColMap e w }
            e (some w) bid)
      by_cases hvc : vcTruthy e.viewColumn = true
      · rw [if_pos hvc]
        have hf := finishAssign_fields
          { a with backend := b2, sideBatches := a.sideBatches ++ [batch],
                   createdWindows := a.createdWindows ++ [w],
                   colMap := insertA a.colMap (vcVal e.viewColumn) w } e (some w) bid
        refine minv_congr _ _ hf.1 hf.2.1 hf.2.2.1 hf.2.2.2
          ⟨hd, nodupKeys_insertA _ _ _ hc, hn, ?_⟩
        show WInv (insertA a.colMap (vcVal e.viewColumn) w) a.noColMap b2.nextId
        rw [hnext]
        exact winv_insert_col _ _ _ _ _ hwle hw
      · rw [if_neg hvc]
        have hf := finishAssign_fields
          { a with backend := b2, sideBatches := a.sideBatches ++ [batch],
                   createdWindows := a.createdWindows ++ [w],
                   noColMap := insertA a.noColMap e w } e (some w) bid
        refine minv_congr _ _ hf.1 hf.2.1 hf.2.2.1 hf.2.2.2
          ⟨hd, hc, nodupKeys_insertA _ _ _ hn, ?_⟩
        show WInv a.colMap (insertA a.noColMap e w) b2.nextId
        rw [hnext]
        exact winv_insert_noCol _ _ _ _ _ hwle hw
  · rw [if_neg hcond]
    have hf := finishAssign_fields a e (lookupA a.colMap (vcVal e.viewColumn)) bid
    exact minv_congr _ _ hf.1 hf.2.1 hf.2.2.1 hf.2.2.2 ⟨hd, hc, hn, hw⟩

/-- One first-loop iteration preserves the accumulator invariant. -/
theorem pve_minv (prev : List TextEditor) (a : PassAcc) (e : TextEditor) (h : MInv a) :
    MInv (processVisibleEditor prev a e) := by
  unfold processVisibleEditor
  rcases he : ensureBuffer a e with a1 | a1
  · simp only [he]
    exact (ensureBuffer_minv a e h).1 a1 he
  · simp only [he]
    split
    · exact (ensureBuffer_minv a e h).2 a1 he
    · exact assignWindow_minv a1 e _ ((ensureBuffer_minv a e h).2 a1 he)

/-- The first loop preserves the accumulator invariant. -/
theorem phase1_minv (current : List TextEditor) :
    ∀ (prev : List TextEditor) (a : PassAcc), MInv a → MInv (phase1 prev a current) := by
  induction current with
  | nil => intro prev a h; exact h
  | cons e tr ih =>
    intro prev a h
    show MInv (phase1 prev (processVisibleEditor prev a e) tr)
    exact ih prev _ (pve_minv prev a e h)

theorem ppeDoc_backend (cur : List TextEditor) (a : PassAcc) (pe : TextEditor) :
    (ppeDocStep cur a pe).backend = a.backend := by
  unfold ppeDocStep
  split <;> rfl

theorem ppeWin_backend (a : PassAcc) (pe : TextEditor) :
    (ppeWinStep a pe).backend = a.backend := by
  unfold ppeWinStep
  repeat first
  | rfl
  | split

/-- One second-loop iteration preserves the accumulator invariant. -/
theorem ppe_minv (cur : List TextEditor) (a : PassAcc) (pe : TextEditor) (h : MInv a) :
    MInv (processPrevEditor cur a pe) := by
  obtain ⟨hd, hc, hn, hw⟩ := h
  have hb : (processPrevEditor cur a pe).backend = a.backend := by
    unfold processPrevEditor
    split
    · rfl
    · rw [ppeWin_backend, ppeDoc_backend]
  have hdm := ppe_docMap cur a pe
  have hwm := ppe_winmaps cur a pe
  refine ⟨?_, ?_, ?_, ?_⟩
  · rw [hdm]
    split
    · exact hd
    · split
      · exact hd
      · exact nodupKeys_eraseA _ _ hd
  · rcases hwm.1 with hcm | hcm
    · rw [hcm]; exact hc
    · rw [hcm]; exact nodupKeys_eraseA _ _ hc
  · rcases hwm.2 with hnm | hnm
    · rw [hnm]; exact hn
    · rw [hnm]; exact nodupKeys_eraseA _ _ hn
  · rw [hb]
    rcases hwm.1 with hcm | hcm <;> rcases hwm.2 with hnm | hnm <;> rw [hcm, hnm]
    · exact hw
    · exact winv_erase_noCol _ _ _ _ hw
    · exact winv_erase_col _ _ _ _ hw
    · exact winv_erase_noCol _ _ _ _ (winv_erase_col _ _ _ _ hw)

/-- The second loop preserves the accumulator invariant. -/
theorem phase2_minv (L : List TextEditor) :
    ∀ (cur : List TextEditor) (a : PassAcc), MInv a → MInv (phase2 cur a L) := by
  induction L with
  | nil => intro cur a h; exact h
  | cons p tr ih =>
    intro cur a h
    show MInv (phase2 cur (processPrevEditor cur a p) tr)
    exact ih cur _ (ppe_minv cur a p h)

/-- The state-level invariant of C6. -/
def StInv (g : BufferManagerState × Backend) : Prop :=
  NodupKeys g.1.textDocumentToBufferId ∧ NodupKeys g.1.editorColumnsToWinId
  ∧ NodupKeys g.1.noColumnEditorsToWinId
  ∧ WInv g.1.editorColumnsToWinId g.1.noColumnEditorsToWinId g.2.nextId

/-- The external-buffer handler leaves the window maps untouched and, on the
document map, either changes nothing or performs one Map.set. -/
theorem extBuf_maps (st : BufferManagerState) (env : ExtBufEnv)
    (nm idStr : String) (isJumping : Int) :
    (externalBufferRequest st env nm idStr isJumping).st.editorColumnsToWinId
      = st.editorColumnsToWinId
    ∧ (externalBufferRequest st env nm idStr isJumping).st.noColumnEditorsToWinId
      = st.noColumnEditorsToWinId
    ∧ (externalBufferRequest st env nm idStr isJumping).st.grids = st.grids
    ∧ ((externalBufferRequest st env nm idStr isJumping).st.textDocumentToBufferId
        = st.textDocumentToBufferId
      ∨ ∃ doc id, (externalBufferRequest st env nm idStr isJumping).st.textDocumentToBufferId
        = insertA st.textDocumentToBufferId doc id) := by
  unfold externalBufferRequest externalBufferJump
  repeat first
  | exact ⟨rfl, rfl, rfl, Or.inl rfl⟩
  | exact ⟨rfl, rfl, rfl, Or.inr ⟨_, _, rfl⟩⟩
  | split

/-- The invariant holds in every reachable state. -/
theorem reachable_stinv (g : BufferManagerState × Backend) (h : Reachable g) : StInv g := by
  induction h with
  | base failAt =>
    exact ⟨List.Pairwise.nil, List.Pairwise.nil, List.Pairwise.nil,
      ⟨fun p hp => absurd hp (List.not_mem_nil p), fun p hp => absurd hp (List.not_mem_nil p),
       fun p hp => absurd hp (List.not_mem_nil p), fun p hp => absurd hp (List.not_mem_nil p)⟩⟩
  | step g op hg ih =>
    obtain ⟨hd, hc, hn, hw⟩ := ih
    cases op with
    | sync current =>
      have hm : MInv (initAcc g.1 g.2) := ⟨hd, hc, hn, hw⟩
      have hm1 := phase1_minv current g.1.openedEditors (initAcc g.1 g.2) hm
      have hm2 := phase2_minv g.1.openedEditors current _ hm1
      exact ⟨hm2.1, hm2.2.1, hm2.2.2.1, hm2.2.2.2⟩
    | closeDoc d =>
      exact ⟨nodupKeys_eraseA _ _ hd, hc, hn, hw⟩
    | redraw batch =>
      have hf := redrawBatch_frame_aux batch g.1
      refine ⟨?_, ?_, ?_, ?_⟩
      · show NodupKeys (handleRedrawBatch g.1 batch).textDocumentToBufferId
        rw [hf.1]; exact hd
      · show NodupKeys (handleRedrawBatch g.1 batch).editorColumnsToWinId
        rw [hf.2.1]; exact hc
      · show NodupKeys (handleRedrawBatch g.1 batch).noColumnEditorsToWinId
        rw [hf.2.2.1]; exact hn
      · show WInv (handleRedrawBatch g.1 batch).editorColumnsToWinId
          (handleRedrawBatch g.1 batch).noColumnEditorsToWinId g.2.nextId
        rw [hf.2.1, hf.2.2.1]; exact hw
    | openFile env fileName close =>
      exact ⟨hd, hc, hn, hw⟩
    | extBuf env nm idStr isJumping =>
      have hf := extBuf_maps g.1 env nm idStr isJumping
      refine ⟨?_, ?_, ?_, ?_⟩
      · rcases hf.2.2.2 with he | ⟨doc, id, he⟩
        · show NodupKeys (externalBufferRequest g.1 env nm idStr isJumping).st.textDocumentToBufferId
          rw [he]; exact hd
        · show NodupKeys (externalBufferRequest g.1 env nm idStr isJumping).st.textDocumentToBufferId
          rw [he]; exact nodupKeys_insertA _ _ _ hd
      · show NodupKeys (externalBufferRequest g.1 env nm idStr isJumping).st.editorColumnsToWinId
        rw [hf.1]; exact hc
      · show NodupKeys (externalBufferRequest g.1 env nm idStr isJumping).st.noColumnEditorsToWinId
        rw [hf.2.1]; exact hn
      · show WInv (externalBufferRequest g.1 env nm idStr isJumping).st.editorColumnsToWinId
          (externalBufferRequest g.1 env nm idStr isJumping).st.noColumnEditorsToWinId g.2.nextId
        rw [hf.1, hf.2.1]; exact hw

/-- Two entries of a nodup-keys map with equal keys are the same entry. -/
theorem nodup_functional {α β : Type} [DecidableEq α] (m : AList α β) (h : NodupKeys m)
    (p q : α × β) (hp : p ∈ m) (hq : q ∈ m) (hk : p.1 = q.1) : p.2 = q.2 := by
  induction m with
  | nil => exact absurd hp (List.not_mem_nil p)
  | cons x r ih =>
    rcases List.pairwise_cons.mp h with ⟨hx, hr⟩
    rcases List.mem_cons.mp hp with hp1 | hp2 <;> rcases List.mem_cons.mp hq with hq1 | hq2
    · rw [hp1, hq1]
    · exfalso
      apply hx q hq2
      rw [← hp1]
      exact hk
    · exfalso
      apply hx p hp2
      rw [← hq1]
      exact hk.symm
    · exact ih hr hp2 hq2

/-- C6: in every reachable state, each document handle maps to at most one
buffer id, each column to at most one window id, each column-less editor to at
most one window id, and a column-less editor's window id is shared neither with
any column nor with any other column-less editor. -/
theorem mapping_uniqueness_invariant (g : BufferManagerState × Backend)
    (h : Reachable g) :
    (∀ p ∈ g.1.textDocumentToBufferId, ∀ q ∈ g.1.textDocumentToBufferId,
        p.1 = q.1 → p.2 = q.2)
    ∧ (∀ p ∈ g.1.editorColumnsToWinId, ∀ q ∈ g.1.editorColumnsToWinId,
        p.1 = q.1 → p.2 = q.2)
    ∧ (∀ p ∈ g.1.noColumnEditorsToWinId, ∀ q ∈ g.1.noColumnEditorsToWinId,
        p.1 = q.1 → p.2 = q.2)
    ∧ (∀ p ∈ g.1.noColumnEditorsToWinId, ∀ q ∈ g.1.editorColumnsToWinId, p.2 ≠ q.2)
    ∧ (∀ p ∈ g.1.noColumnEditorsToWinId, ∀ q ∈ g.1.noColumnEditorsToWinId,
        p.1 ≠ q.1 → p.2 ≠ q.2) := by
  obtain ⟨hd, hc, hn, hw⟩ := reachable_stinv g h
  exact ⟨fun p hp q hq => nodup_functional _ hd p q hp hq,
    fun p hp q hq => nodup_functional _ hc p q hp hq,
    fun p hp q hq => nodup_functional _ hn p q hp hq,
    hw.2.2.1, hw.2.2.2⟩

/-- Witness for C6: in the concrete state reached by one pass that opens exEd
and one that additionally opens the column-less exEdNoCol, the column-less
editor's window id 6 differs from column 1's window id 3. -/
theorem mapping_uniqueness_invariant_witness :
    ((exEdNoCol, (6 : Int)).2 ≠ (((1 : Int), (3 : Int)) : Int × Int).2) :=
  (mapping_uniqueness_invariant _
    (Reachable.step _ (ManagerOp.sync [exEd, exEdNoCol])
      (Reachable.step _ (ManagerOp.sync [exEd]) (Reachable.base [])))).2.2.2.1
    (exEdNoCol, 6) (by decide) ((1 : Int), (3 : Int)) (by decide)

/-! ## C3: happens-before between the two synchronizers -/

/-- A found entry survives appending on the right. -/
theorem lookupA_append_left {α β : Type} [DecidableEq α] (m m' : AList α β) (k : α) (v : β)
    (h : lookupA m k = some v) : lookupA (m ++ m') k = some v := by
  induction m with
  | nil => simp [lookupA] at h
  | cons p r ih =>
    rw [List.cons_append, lookupA_cons] at *
    by_cases hp : p.1 = k
    · rw [if_pos hp] at h ⊢
      exact h
    · rw [if_neg hp] at h ⊢
      exact ih h

/-- A key different from every key of the map is absent. -/
theorem lookupA_none_of_ne {α β : Type} [DecidableEq α] (m : AList α β) (k : α)
    (h : ∀ p ∈ m, p.1 ≠ k) : lookupA m k = none := by
  induction m with
  | nil => rfl
  | cons p r ih =>
    rw [lookupA_cons, if_neg (h p (List.mem_cons_self _ _))]
    exact ih (fun q hq => h q (List.mem_cons_of_mem _ hq))

/-- The scheduler invariant: task ids are unique and below the counter, the
pending generation is below the generation counter, and every logged
set-current-win emission names a task id below the counter. -/
def SchedInv (s : Sched) : Prop :=
  NodupKeys s.tasks
  ∧ (∀ p ∈ s.tasks, p.1 < s.nextTid)
  ∧ (∀ g, s.pending = some g → g < s.promiseGen)
  ∧ (∀ t, SchedEv.setCurrentWin t ∈ s.log → t < s.nextTid)

/-- A found entry is a member. -/
theorem lookup_mem_tasks (s : Sched) (tid : Nat) (st : Option Nat)
    (h : lookupA s.tasks tid = some st) : (tid, st) ∈ s.tasks :=
  lookupA_mem s.tasks tid st h

/-- Each scheduler step preserves the invariant. -/
theorem schedInv_step (s s1 : Sched) (act : SchedAction) (hinv : SchedInv s)
    (hstep : schedStep s act = some s1) : SchedInv s1 := by
  obtain ⟨hnd, hkeys, hpend, hlog⟩ := hinv
  cases act with
  | notifyLayout =>
    cases hp : s.pending with
    | some g =>
      simp only [schedStep, hp, Option.some.injEq] at hstep
      subst hstep
      refine ⟨hnd, hkeys, ?_, hlog⟩
      intro g' hg'
      have hgg : g = g' := Option.some.inj hg'
      rw [← hgg]
      exact hpend g hp
    | none =>
      simp only [schedStep, hp, Option.some.injEq] at hstep
      subst hstep
      refine ⟨hnd, hkeys, ?_, hlog⟩
      intro g' hg'
      have hgg : s.promiseGen = g' := Option.some.inj hg'
      rw [← hgg]
      exact lt_add_one _
  | notifyActive =>
    simp only [schedStep, Option.some.injEq] at hstep
    subst hstep
    refine ⟨?_, ?_, fun g hg => hpend g hg, ?_⟩
    · show List.Pairwise (fun p q => p.1 ≠ q.1) (s.tasks ++ [(s.nextTid, none)])
      rw [List.pairwise_append]
      refine ⟨hnd, List.pairwise_singleton _ _, ?_⟩
      intro p hp q hq
      rw [List.mem_singleton] at hq
      rw [hq]
      exact ne_of_lt (hkeys p hp)
    · intro p hp
      rcases List.mem_append.mp hp with hp1 | hp2
      · exact lt_trans (hkeys p hp1) (lt_add_one _)
      · rw [List.mem_singleton] at hp2
        rw [hp2]
        exact lt_add_one _
    · intro t ht
      exact lt_trans (hlog t ht) (lt_add_one _)
  | runLayout =>
    simp only [schedStep] at hstep
    split at hstep
    · simp only [Option.some.injEq] at hstep
      subst hstep
      refine ⟨hnd, hkeys, ?_, ?_⟩
      · intro g hg
        exact Option.noConfusion hg
      · intro t ht
        rcases List.mem_append.mp ht with ht1 | ht2
        · exact hlog t ht1
        · rw [List.mem_singleton] at ht2
          exact SchedEv.noConfusion ht2
    · exact Option.noConfusion hstep
  | startActive tid =>
    simp only [schedStep] at hstep
    split at hstep
    · next hlk =>
      cases hp : s.pending with
      | some g =>
        rw [hp] at hstep
        simp only [Option.some.injEq] at hstep
        subst hstep
        refine ⟨nodupKeys_insertA _ _ _ hnd, ?_, ?_, hlog⟩
        · intro p hp2
          rcases mem_insertA s.tasks tid (some g) p hp2 with hp3 | hp4
          · rw [hp3]
            exact hkeys (tid, none) (lookup_mem_tasks s tid none hlk)
          · exact hkeys p hp4
        · intro g' hg'
          have hgg : g = g' := Option.some.inj hg'
          rw [← hgg]
          exact hpend g hp
      | none =>
        rw [hp] at hstep
        simp only [Option.some.injEq] at hstep
        subst hstep
        refine ⟨nodupKeys_eraseA _ _ hnd, ?_, ?_, ?_⟩
        · intro p hp2
          exact hkeys p (mem_eraseA _ _ _ hp2).1
        · intro g hg
          exact Option.noConfusion hg
        · intro t ht
          rcases List.mem_append.mp ht with ht1 | ht2
          · exact hlog t ht1
          · rw [List.mem_singleton] at ht2
            have : t = tid := SchedEv.setCurrentWin.inj ht2
            rw [this]
            exact hkeys (tid, none) (lookup_mem_tasks s tid none hlk)
    · exact Option.noConfusion hstep
  | resumeActive tid =>
    cases hlk : lookupA s.tasks tid with
    | none =>
      simp only [schedStep, hlk] at hstep
      exact Option.noConfusion hstep
    | some st =>
      cases st with
      | none =>
        simp only [schedStep, hlk] at hstep
        exact Option.noConfusion hstep
      | some g =>
        simp only [schedStep, hlk] at hstep
        split at hstep
        · simp only [Option.some.injEq] at hstep
          subst hstep
          refine ⟨nodupKeys_eraseA _ _ hnd, ?_, fun g' hg' => hpend g' hg', ?_⟩
          · intro p hp2
            exact hkeys p (mem_eraseA _ _ _ hp2).1
          · intro t ht
            rcases List.mem_append.mp ht with ht1 | ht2
            · exact hlog t ht1
            · rw [List.mem_singleton] at ht2
              have : t = tid := SchedEv.setCurrentWin.inj ht2
              rw [this]
              exact hkeys (tid, some g) (lookup_mem_tasks s tid (some g) hlk)
        · exact Option.noConfusion hstep

/-- Each scheduler step only appends to the log. -/
theorem schedStep_log (s s1 : Sched) (act : SchedAction)
    (hstep : schedStep s act = some s1) : ∃ ext, s1.log = s.log ++ ext := by
  cases act with
  | notifyLayout =>
    cases hp : s.pending with
    | some g =>
      simp only [schedStep, hp, Option.some.injEq] at hstep
      subst hstep
      exact ⟨[], by simp⟩
    | none =>
      simp only [schedStep, hp, Option.some.injEq] at hstep
      subst hstep
      exact ⟨[], by simp⟩
  | notifyActive =>
    simp only [schedStep, Option.some.injEq] at hstep
    subst hstep
    exact ⟨[], by simp⟩
  | runLayout =>
    simp only [schedStep] at hstep
    split at hstep
    · simp only [Option.some.injEq] at hstep
      subst hstep
      exact ⟨_, rfl⟩
    · exact Option.noConfusion hstep
  | startActive tid =>
    simp only [schedStep] at hstep
    split at hstep
    · cases hp : s.pending with
      | some g =>
        rw [hp] at hstep
        simp only [Option.some.injEq] at hstep
        subst hstep
        exact ⟨[], by simp⟩
      | none =>
        rw [hp] at hstep
        simp only [Option.some.injEq] at hstep
        subst hstep
        exact ⟨_, rfl⟩
    · exact Option.noConfusion hstep
  | resumeActive tid =>
    cases hlk : lookupA s.tasks tid with
    | none =>
      simp only [schedStep, hlk] at hstep
      exact Option.noConfusion hstep
    | some st =>
      cases st with
      | none =>
        simp only [schedStep, hlk] at hstep
        exact Option.noConfusion hstep
      | some g =>
        simp only [schedStep, hlk] at hstep
        split at hstep
        · simp only [Option.some.injEq] at hstep
          subst hstep
          exact ⟨_, rfl⟩
        · exact Option.noConfusion hstep

/-- A trace only appends to the log. -/
theorem runTrace_log (tr : List SchedAction) :
    ∀ (s s' : Sched), runTrace s tr = some s' → ∃ ext, s'.log = s.log ++ ext := by
  induction tr with
  | nil =>
    intro s s' h
    simp only [runTrace, Option.some.injEq] at h
    subst h
    exact ⟨[], by simp⟩
  | cons act tr' ih =>
    intro s s' h
    unfold runTrace at h
    cases hstep : schedStep s act with
    | none => rw [hstep] at h; simp at h
    | some s1 =>
      rw [hstep] at h
      obtain ⟨e1, he1⟩ := schedStep_log s s1 act hstep
      obtain ⟨e2, he2⟩ := ih s1 s' h
      exact ⟨e1 ++ e2, by rw [he2, he1, List.append_assoc]⟩

/-- Inductive motive of the happens-before proof, for a fixed pass baseline P
and a task id tid created at or after the layout notification: either a pass
numbered at least P has already issued its batch, or the promise created by
the notification (or a successor) is still pending and the task has not yet
emitted. -/
def Good (P tid : Nat) (s : Sched) : Prop :=
  (∃ k, P ≤ k ∧ SchedEv.batchIssued k ∈ s.log)
  ∨ (P ≤ s.passCount ∧ ∃ g, s.pending = some g
      ∧ (s.nextTid ≤ tid ∨ lookupA s.tasks tid = some none
         ∨ lookupA s.tasks tid = some (some g)))

/-- One scheduler step either preserves the motive without emitting the
task's set-current-win, or emits it with a qualifying batch already logged. -/
theorem good_step (s s1 : Sched) (act : SchedAction) (P tid : Nat)
    (hinv : SchedInv s) (hstep : schedStep s act = some s1) (hg : Good P tid s) :
    (Good P tid s1
      ∧ (SchedEv.setCurrentWin tid ∈ s1.log → SchedEv.setCurrentWin tid ∈ s.log))
    ∨ (∃ k, P ≤ k ∧ SchedEv.batchIssued k ∈ s.log
        ∧ s1.log = s.log ++ [SchedEv.setCurrentWin tid]) := by
  obtain ⟨hnd, hkeys, hpend, hlog⟩ := hinv
  cases act with
  | notifyLayout =>
    cases hp : s.pending with
    | some g =>
      simp only [schedStep, hp, Option.some.injEq] at hstep
      subst hstep
      refine Or.inl ⟨?_, fun h => h⟩
      rcases hg with ⟨k, hk, hmem⟩ | ⟨hpc, g0, hp0, hst⟩
      · exact Or.inl ⟨k, hk, hmem⟩
      · exact Or.inr ⟨hpc, g0, hp ▸ hp0, hst⟩
    | none =>
      simp only [schedStep, hp, Option.some.injEq] at hstep
      subst hstep
      refine Or.inl ⟨?_, fun h => h⟩
      rcases hg with ⟨k, hk, hmem⟩ | ⟨hpc, g0, hp0, hst⟩
      · exact Or.inl ⟨k, hk, hmem⟩
      · rw [hp] at hp0
        exact Option.noConfusion hp0
  | notifyActive =>
    simp only [schedStep, Option.some.injEq] at hstep
    subst hstep
    refine Or.inl ⟨?_, fun h => h⟩
    rcases hg with ⟨k, hk, hmem⟩ | ⟨hpc, g0, hp0, hst⟩
    · exact Or.inl ⟨k, hk, hmem⟩
    · refine Or.inr ⟨hpc, g0, hp0, ?_⟩
      rcases hst with h1 | h2 | h3
      · by_cases he : tid = s.nextTid
        · refine Or.inr (Or.inl ?_)
          have hn : lookupA s.tasks tid = none :=
            lookupA_none_of_ne s.tasks tid
              (fun p hp => by rw [he]; exact ne_of_lt (hkeys p hp))
          show lookupA (s.tasks ++ [(s.nextTid, none)]) tid = some none
          rw [lookupA_append_right _ _ _ hn, he]
          simp [lookupA]
        · refine Or.inl ?_
          show s.nextTid + 1 ≤ tid
          exact Nat.succ_le_of_lt (lt_of_le_of_ne h1 (fun hh => he hh.symm))
      · refine Or.inr (Or.inl ?_)
        exact lookupA_append_left _ _ _ _ h2
      · refine Or.inr (Or.inr ?_)
        exact lookupA_append_left _ _ _ _ h3
  | runLayout =>
    simp only [schedStep] at hstep
    split at hstep
    · simp only [Option.some.injEq] at hstep
      subst hstep
      refine Or.inl ⟨?_, ?_⟩
      · rcases hg with ⟨k, hk, hmem⟩ | ⟨hpc, g0, hp0, hst⟩
        · exact Or.inl ⟨k, hk, List.mem_append_left _ hmem⟩
        · exact Or.inl ⟨s.passCount, hpc,
            List.mem_append_right _ (List.mem_singleton.mpr rfl)⟩
      · intro h
        rcases List.mem_append.mp h with h1 | h2
        · exact h1
        · rw [List.mem_singleton] at h2
          exact SchedEv.noConfusion h2
    · exact Option.noConfusion hstep
  | startActive tid' =>
    simp only [schedStep] at hstep
    split at hstep
    · next hlk =>
      cases hp : s.pending with
      | some g =>
        rw [hp] at hstep
        simp only [Option.some.injEq] at hstep
        subst hstep
        refine Or.inl ⟨?_, fun h => h⟩
        rcases hg with ⟨k, hk, hmem⟩ | ⟨hpc, g0, hp0, hst⟩
        · exact Or.inl ⟨k, hk, hmem⟩
        · have hgg : g = g0 := Option.some.inj (hp ▸ hp0)
          subst hgg
          refine Or.inr ⟨hpc, g, rfl, ?_⟩
          rcases hst with h1 | h2 | h3
          · exact Or.inl h1
          · by_cases he : tid = tid'
            · subst he
              refine Or.inr (Or.inr ?_)
              show lookupA (insertA s.tasks tid (some g)) tid = some (some g)
              exact lookupA_insertA_self _ _ _
            · refine Or.inr (Or.inl ?_)
              show lookupA (insertA s.tasks tid' (some g)) tid = some none
              rw [lookupA_insertA_ne _ _ _ _ (fun hh => he hh.symm)]
              exact h2
          · by_cases he : tid = tid'
            · subst he
              rw [hlk] at h3
              exact Option.noConfusion (Option.some.inj h3)
            · refine Or.inr (Or.inr ?_)
              show lookupA (insertA s.tasks tid' (some g)) tid = some (some g)
              rw [lookupA_insertA_ne _ _ _ _ (fun hh => he hh.symm)]
              exact h3
      | none =>
        rw [hp] at hstep
        simp only [Option.some.injEq] at hstep
        subst hstep
        by_cases he : tid' = tid
        · subst he
          rcases hg with ⟨k, hk, hmem⟩ | ⟨hpc, g0, hp0, hst⟩
          · exact Or.inr ⟨k, hk, hmem, rfl⟩
          · rw [hp] at hp0
            exact Option.noConfusion hp0
        · refine Or.inl ⟨?_, ?_⟩
          · rcases hg with ⟨k, hk, hmem⟩ | ⟨hpc, g0, hp0, hst⟩
            · exact Or.inl ⟨k, hk, List.mem_append_left _ hmem⟩
            · rw [hp] at hp0
              exact Option.noConfusion hp0
          · intro h
            rcases List.mem_append.mp h with h1 | h2
            · exact h1
            · rw [List.mem_singleton] at h2
              exact absurd (SchedEv.setCurrentWin.inj h2).symm he
    · exact Option.noConfusion hstep
  | resumeActive tid' =>
    cases hlk : lookupA s.tasks tid' with
    | none =>
      simp only [schedStep, hlk] at hstep
      exact Option.noConfusion hstep
    | some st =>
      cases st with
      | none =>
        simp only [schedStep, hlk] at hstep
        exact Option.noConfusion hstep
      | some gr =>
        simp only [schedStep, hlk] at hstep
        split at hstep
        · next hres =>
          simp only [Option.some.injEq] at hstep
          subst hstep
          by_cases he : tid' = tid
          · subst he
            rcases hg with ⟨k, hk, hmem⟩ | ⟨hpc, g0, hp0, hst⟩
            · exact Or.inr ⟨k, hk, hmem, rfl⟩
            · exfalso
              rcases hst with h1 | h2 | h3
              · exact absurd (hkeys (tid', some gr) (lookup_mem_tasks s tid' (some gr) hlk))
                  (not_lt.mpr h1)
              · rw [hlk] at h2
                exact Option.noConfusion (Option.some.inj h2)
              · rw [hlk] at h3
                have : gr = g0 := Option.some.inj (Option.some.inj h3)
                subst this
                exact hres.2 hp0
          · refine Or.inl ⟨?_, ?_⟩
            · rcases hg with ⟨k, hk, hmem⟩ | ⟨hpc, g0, hp0, hst⟩
              · exact Or.inl ⟨k, hk, List.mem_append_left _ hmem⟩
              · refine Or.inr ⟨hpc, g0, hp0, ?_⟩
                rcases hst with h1 | h2 | h3
                · exact Or.inl h1
                · refine Or.inr (Or.inl ?_)
                  show lookupA (eraseA s.tasks tid') tid = some none
                  rw [lookupA_eraseA_ne _ _ _ he]
                  exact h2
                · refine Or.inr (Or.inr ?_)
                  show lookupA (eraseA s.tasks tid') tid = some (some g0)
                  rw [lookupA_eraseA_ne _ _ _ he]
                  exact h3
            · intro h
              rcases List.mem_append.mp h with h1 | h2
              · exact h1
              · rw [List.mem_singleton] at h2
                exact absurd (SchedEv.setCurrentWin.inj h2).symm he
        · exact Option.noConfusion hstep

/-- Trace-level induction: from a state satisfying the motive in which the
task has not yet emitted, any emission of its set-current-win is preceded in
the log by the batch of a pass numbered at least P. -/
theorem sched_aux (tr : List SchedAction) :
    ∀ (s s' : Sched) (P tid : Nat), SchedInv s → runTrace s tr = some s' →
    Good P tid s → SchedEv.setCurrentWin tid ∉ s.log →
    SchedEv.setCurrentWin tid ∈ s'.log →
    ∃ k, P ≤ k ∧ Precedes s'.log (SchedEv.batchIssued k) (SchedEv.setCurrentWin tid) := by
  induction tr with
  | nil =>
    intro s s' P tid _ hrun hg hnin hin
    simp only [runTrace, Option.some.injEq] at hrun
    subst hrun
    exact absurd hin hnin
  | cons act tr' ih =>
    intro s s' P tid hinv hrun hg hnin hin
    unfold runTrace at hrun
    cases hstep : schedStep s act with
    | none =>
      rw [hstep] at hrun
      exact Option.noConfusion hrun
    | some s1 =>
      rw [hstep] at hrun
      rcases good_step s s1 act P tid ⟨hinv.1, hinv.2.1, hinv.2.2.1, hinv.2.2.2⟩ hstep hg with
        ⟨hg1, hmono⟩ | ⟨k, hk, hmem, hlog1⟩
      · exact ih s1 s' P tid (schedInv_step s s1 act hinv hstep) hrun hg1
          (fun hc => hnin (hmono hc)) hin
      · obtain ⟨ext, hext⟩ := runTrace_log tr' s1 s' hrun
        refine ⟨k, hk, s.log, [SchedEv.setCurrentWin tid] ++ ext, ?_, hmem,
          List.mem_append_left _ (List.mem_singleton.mpr rfl)⟩
        rw [hext, hlog1, List.append_assoc]

/-- C3: when a layout-change notification is delivered, the readiness promise
is created synchronously (before the debounced pass runs, which is only
queued), and for every set-current-win emission of an active-editor task
created at or after that notification, some layout pass numbered at least the
notification's pass baseline has issued its batch earlier in the log: the
active-window request is issued only after the layout pass triggered by that
layout change has issued its atomic batch. -/
theorem active_editor_happens_before (s s1 : Sched) (tr : List SchedAction)
    (s' : Sched) (tid : Nat)
    (hinv : SchedInv s)
    (hstep : schedStep s SchedAction.notifyLayout = some s1)
    (hrun : runTrace s1 tr = some s')
    (htid : s1.nextTid ≤ tid)
    (hemit : SchedEv.setCurrentWin tid ∈ s'.log) :
    (s1.pending.isSome = true ∧ s1.layoutQueued = true)
    ∧ ∃ k, s1.passCount ≤ k
        ∧ Precedes s'.log (SchedEv.batchIssued k) (SchedEv.setCurrentWin tid) := by
  have hinv1 := schedInv_step s s1 SchedAction.notifyLayout hinv hstep
  have hpq : (∃ g, s1.pending = some g) ∧ s1.layoutQueued = true := by
    cases hp : s.pending with
    | some g =>
      simp only [schedStep, hp, Option.some.injEq] at hstep
      subst hstep
      exact ⟨⟨g, rfl⟩, rfl⟩
    | none =>
      simp only [schedStep, hp, Option.some.injEq] at hstep
      subst hstep
      exact ⟨⟨s.promiseGen, rfl⟩, rfl⟩
  obtain ⟨⟨g, hg⟩, hq⟩ := hpq
  have hgood : Good s1.passCount tid s1 := Or.inr ⟨le_refl _, g, hg, Or.inl htid⟩
  have hnin : SchedEv.setCurrentWin tid ∉ s1.log := fun hc =>
    absurd (hinv1.2.2.2 tid hc) (not_lt.mpr htid)
  exact ⟨⟨by rw [hg]; rfl, hq⟩,
    sched_aux tr s1 s' s1.passCount tid hinv1 hrun hgood hnin hemit⟩

/-- The idle scheduler. -/
def schedInit : Sched :=
  { pending := none, promiseGen := 0, layoutQueued := false, tasks := [],
    nextTid := 0, passCount := 0, log := [] }

/-- The scheduler right after a layout notification. -/
def sched1 : Sched := (schedStep schedInit SchedAction.notifyLayout).getD schedInit

/-- A trace where the active-editor notification follows the layout one, the
layout body runs, and the active body then emits. -/
def schedTrace : List SchedAction :=
  [SchedAction.notifyActive, SchedAction.runLayout, SchedAction.startActive 0]

/-- Final scheduler state of the witness trace. -/
def schedFinal : Sched := (runTrace sched1 schedTrace).getD schedInit

/-- Witness for C3: on the concrete trace the set-current-win of the task
created after the notification is preceded by the batch of pass 0. -/
theorem active_editor_happens_before_witness :
    (sched1.pending.isSome = true ∧ sched1.layoutQueued = true)
    ∧ ∃ k, sched1.passCount ≤ k
        ∧ Precedes schedFinal.log (SchedEv.batchIssued k) (SchedEv.setCurrentWin 0) :=
  active_editor_happens_before schedInit sched1 schedTrace schedFinal 0
    ⟨List.Pairwise.nil,
     fun p hp => absurd hp (List.not_mem_nil p),
     fun g hg => Option.noConfusion hg,
     fun t ht => absurd ht (List.not_mem_nil _)⟩
    rfl rfl (by decide) (by decide)

end VNSync